import Mathlib

/-!
Verification of the circuit-input generation pipeline of the zkemail
relayer-utils library, as a shallow embedding in Lean.

Bytes are modelled as natural numbers (every byte produced by the code is
below 256), byte strings as lists of naturals, and arbitrary-precision
unsigned integers as naturals.  Rust functions are translated one-to-one
from the source files in src/: pure functions become Lean functions,
fallible code returns Option or Except, and panics and non-terminating
loops are modelled by a dedicated constructor or by Option.none as noted
at each definition.  Release-mode Rust semantics are used for integer
arithmetic: usize subtraction wraps modulo 2^64.
-/

namespace RelayerUtils


/-! ## Constants (src/constants.rs) -/

/-- Bits per chunk of the circom bigint encoding (CIRCOM_BIGINT_N). -/
def CIRCOM_BIGINT_N : Nat := 121

/-- Number of chunks of the circom bigint encoding (CIRCOM_BIGINT_K). -/
def CIRCOM_BIGINT_K : Nat := 17

/-! ## Basic byte/integer converters (src/converters.rs) -/

/-- Auxiliary: the `k` big-endian base-256 digits of `m`, most significant
first, digit `i` being `(m >>> (8*(k-1-i))) % 256`.  Mirrors the layout of
Rust's `u64::to_be_bytes`. -/
def beBytesAux : Nat → Nat → List Nat
  | 0, _ => []
  | k + 1, m => (m >>> (8 * k)) % 256 :: beBytesAux k m

/-- Embeds `int64_to_bytes` (src/converters.rs): a 64-bit integer as 8
big-endian bytes.  The Rust argument is a `u64`, so the value is reduced
modulo `2^64` first. -/
def int64_to_bytes (num : Nat) : List Nat :=
  beBytesAux 8 (num % 2 ^ 64)

/-- Embeds `int8_to_bytes` (src/converters.rs). -/
def int8_to_bytes (num : Nat) : List Nat := [num]

/-- Embeds `merge_u8_arrays` (src/converters.rs). -/
def merge_u8_arrays (a b : List Nat) : List Nat := a ++ b

/-- Embeds `vec_u8_to_bigint` (src/converters.rs): big-endian fold
`acc << 8 | b` over the bytes. -/
def vec_u8_to_bigint (bytes : List Nat) : Nat :=
  bytes.foldl (fun acc b => (acc <<< 8) ||| b) 0

/-- Chunk values extracted by the loop of `big_int_to_chunked_bytes`
(src/converters.rs): repeatedly take `num % 2^bits` and shift `num` right
by `bits`, `num_chunks` times, least significant chunk first.  The Rust
code works on `BigInt`, but every caller passes a non-negative value
(`vec_u8_to_bigint` output), so natural numbers are faithful. -/
def bigIntChunkVals : Nat → Nat → Nat → List Nat
  | _, _, 0 => []
  | num, bits, k + 1 => num % 2 ^ bits :: bigIntChunkVals (num >>> bits) bits k

/-- Embeds `big_int_to_chunked_bytes` (src/converters.rs): the chunk values
of the loop, each rendered as a decimal string. -/
def big_int_to_chunked_bytes (num bits_per_chunk num_chunks : Nat) : List String :=
  (bigIntChunkVals num bits_per_chunk num_chunks).map Nat.repr

/-- Embeds `to_circom_bigint_bytes` (src/converters.rs). -/
def to_circom_bigint_bytes (num : Nat) : List String :=
  big_int_to_chunked_bytes num CIRCOM_BIGINT_N CIRCOM_BIGINT_K

/-- Positional value of a chunk list: `chunk_0 + 2^bits * (chunk_1 + ...)`,
that is, the sum of `chunk_i * 2^(bits*i)`. -/
def chunkSum (bits : Nat) : List Nat → Nat
  | [] => 0
  | c :: cs => c + 2 ^ bits * chunkSum bits cs

/-! ## SHA-256 block padding (src/cryptos.rs, `sha256_pad`) -/

/-- Embeds the first while loop of `sha256_pad`: append zero bytes until
`(len*8 + 64) % 512 == 0` (64 being the bit length of the 8-byte length
field appended afterwards). -/
def padUntilAligned (l : List Nat) : List Nat :=
  if (l.length * 8 + 64) % 512 = 0 then l
  else padUntilAligned (merge_u8_arrays l (int8_to_bytes 0))
termination_by (120 - l.length % 64) % 64
decreasing_by
  simp only [merge_u8_arrays, int8_to_bytes, List.length_append, List.length_cons,
    List.length_nil]
  rename_i hne
  have h8 : (l.length * 8 + 64) % 512 = 8 * ((l.length + 8) % 64) := by
    have : l.length * 8 + 64 = 8 * (l.length + 8) := by ring
    rw [this]
    have : (512 : Nat) = 8 * 64 := by norm_num
    rw [this, Nat.mul_mod_mul_left]
  rw [h8] at hne
  have hr : l.length % 64 ≠ 56 := by omega
  omega

/-- Embeds the second while loop of `sha256_pad`: extend with
`int64_to_bytes 0` (8 zero bytes at a time) while the length is below
`max_sha_bytes`. -/
def extendToMax (l : List Nat) (maxBytes : Nat) : List Nat :=
  if l.length < maxBytes then extendToMax (merge_u8_arrays l (int64_to_bytes 0)) maxBytes
  else l
termination_by maxBytes - l.length
decreasing_by
  simp only [merge_u8_arrays, int64_to_bytes, beBytesAux, List.length_append,
    List.length_cons, List.length_nil]
  omega

/-- Embeds `sha256_pad` (src/cryptos.rs).  The two `assert!` calls are
modelled by returning `none` when their condition fails; on success the
result is the padded buffer together with `message_len`, the length of the
buffer before zero-extension. -/
def sha256_pad (data : List Nat) (max_sha_bytes : Nat) : Option (List Nat × Nat) :=
  let length_in_bytes := int64_to_bytes (data.length * 8)
  let d1 := merge_u8_arrays data (int8_to_bytes 0x80)
  let d2 := padUntilAligned d1
  let d3 := merge_u8_arrays d2 length_in_bytes
  if (d3.length * 8) % 512 ≠ 0 then none
  else
    let message_len := d3.length
    let d4 := extendToMax d3 max_sha_bytes
    if d4.length = max_sha_bytes then some (d4, message_len) else none

/-! ## Partial SHA (src/cryptos.rs, `generate_partial_sha`) -/

/-- Embeds the trimming while loop of `generate_partial_sha`, which pops
bytes from the end of the body until the last byte is 10 and the byte
before it is 13, operating here on the reversed list.  The loop never
terminates when the body contains no 13-10 pair (in release mode popping
an empty vector is a no-op; in debug mode an index underflow aborts when
the sole remaining byte is 10): both failure modes are modelled by
`none`. -/
def stripLoopRev : List Nat → Option (List Nat)
  | 10 :: 13 :: rest => some (10 :: 13 :: rest)
  | [] => none
  | _ :: rest => stripLoopRev rest

/-- Embeds the construction of `body_str` in `generate_partial_sha`: undo
the SHA padding by trimming from the end until the buffer ends in 13, 10.
The conversion of the trimmed bytes to a UTF-8 string is elided; the
selector regex matcher receives the bytes directly. -/
def stripShaPadding (body : List Nat) : Option (List Nat) :=
  (stripLoopRev body.reverse).map List.reverse

/-- Wrapping subtraction on usize (release-mode Rust semantics), for
operands below `2^64`. -/
def wrapSub (a b : Nat) : Nat :=
  if b ≤ a then a - b else 2 ^ 64 - (b - a)

/-- Error cases of `generate_partial_sha` (src/cryptos.rs). -/
inductive PartialShaError where
  | selectorNotFound
  | remainingBodyTooLong
  | misalignedPadding
deriving DecidableEq

/-- Embeds `generate_partial_sha` (src/cryptos.rs).  The selector regex is
the external regex collaborator and is abstracted as a function from the
trimmed body to the optional byte offset of its first match.  The
precomputed SHA-256 state is represented by its preimage, the prefix
`body[..sha_cutoff_index]` passed to the external `partial_sha` primitive.
Outer `none` models the two abnormal exits: the non-terminating trim loop
and the out-of-bounds slice `body[..cutoff]` when the cutoff exceeds the
body length. -/
def generate_partial_sha (body : List Nat) (body_length : Nat)
    (selectorFind : Option (List Nat → Option Nat))
    (max_remaining_body_length : Nat) :
    Option (Except PartialShaError (List Nat × List Nat × Nat)) :=
  let rest := fun (selector_index : Nat) =>
    let sha_cutoff_index := selector_index / 64 * 64
    if sha_cutoff_index > body.length then none
    else
      let precompute_text := body.take sha_cutoff_index
      let body_remaining := body.drop sha_cutoff_index
      let body_remaining_length := wrapSub body_length precompute_text.length
      if body_remaining_length > max_remaining_body_length then
        some (Except.error PartialShaError.remainingBodyTooLong)
      else if body_remaining.length % 64 ≠ 0 then
        some (Except.error PartialShaError.misalignedPadding)
      else
        some (Except.ok (precompute_text,
          body_remaining ++ List.replicate (max_remaining_body_length - body_remaining.length) 0,
          body_remaining_length))
  match selectorFind with
  | some find =>
    match stripShaPadding body with
    | none => none
    | some trimmed =>
      match find trimmed with
      | none => some (Except.error PartialShaError.selectorNotFound)
      | some idx => rest idx
  | none => rest 0

/-! ## Quoted-printable soft line breaks (src/parse_email.rs) -/

/-- Embeds the scanning loop of `remove_quoted_printable_soft_breaks`
(src/parse_email.rs): walk the body left to right, skipping every
61, 13, 10 triple (the bytes of the soft line break) and copying every
other byte. -/
def removeQpAux : List Nat → List Nat
  | 61 :: 13 :: 10 :: rest => removeQpAux rest
  | b :: rest => b :: removeQpAux rest
  | [] => []

/-- Embeds `remove_quoted_printable_soft_breaks` (src/parse_email.rs): the
cleaned bytes, zero-padded back to the original length.  The returned
index map (a second component in Rust) is not needed by any claim and is
omitted. -/
def remove_quoted_printable_soft_breaks (body : List Nat) : List Nat :=
  let cleaned := removeQpAux body
  cleaned ++ List.replicate (body.length - cleaned.length) 0

/-! ## Field elements and chunked byte decomposition (src/converters.rs) -/

/-- Modulus of the BN254 scalar field, the field of `poseidon_rs::Fr`. -/
def frModulus : Nat :=
  21888242871839275222246405745257275088548364400416034343698204186575808495617

/-- The scalar field used by the proving system. -/
abbrev Fr := ZMod frModulus

/-- Chunking of a list into consecutive pieces of `n` elements (the last
piece may be shorter), as Rust's slice `chunks` iterator.  Implemented
with an explicit fuel argument equal to the list length. -/
def chunksOfAux : Nat → Nat → List α → List (List α)
  | 0, _, _ => []
  | _, _, [] => []
  | fuel + 1, n, x :: xs => (x :: xs).take n :: chunksOfAux fuel n ((x :: xs).drop n)

/-- Rust `chunks(n)` over a slice, for `n ≥ 1`. -/
def chunksOf (n : Nat) (l : List α) : List (List α) :=
  chunksOfAux l.length n l

/-- Word built from one chunk of bits, as in `bytes_chunk_fields`: the sum
of `2^i` over the set bit positions `i`, in the field. -/
def wordFromBits (chunk : List Nat) : Fr :=
  chunk.enum.foldl
    (fun word p => if p.2 = 1 then word + ((2 ^ p.1 : Nat) : Fr) else word) 0

/-- Field element built from one group of words, as in
`bytes_chunk_fields`: positional-weight summation with weight
`2^chunk_bit_size` per step. -/
def wordsToField (chunk_bit_size : Nat) (ws : List Fr) : Fr :=
  (ws.foldl
    (fun (p : Fr × Fr) w => (p.1 + p.2 * w, p.2 * ((2 ^ chunk_bit_size : Nat) : Fr)))
    (0, 1)).1

/-- Embeds `bytes_chunk_fields` (src/converters.rs): zero-pad the bytes up
to `max_chunk_size * chunk_bit_size / 8`, split every byte into its 8 bits
least significant first, regroup the bits into `chunk_bit_size`-wide
words, and combine every `num_chunk_in_field` words into one field
element. -/
def bytes_chunk_fields (bytes : List Nat)
    (chunk_bit_size num_chunk_in_field max_chunk_size : Nat) : List Fr :=
  let max_bytes_size := max_chunk_size * chunk_bit_size / 8
  let padded :=
    if bytes.length < max_bytes_size then
      bytes ++ List.replicate (max_bytes_size - bytes.length) 0
    else bytes
  let bits := padded.flatMap (fun byte => (List.range 8).map fun i => (byte >>> i) &&& 1)
  let words := (chunksOf chunk_bit_size bits).map wordFromBits
  (chunksOf num_chunk_in_field words).map (wordsToField chunk_bit_size)

/-- Abstract interface of the external `poseidon_fields` primitive of the
poseidon_rs crate: a fallible hash over a list of field elements. -/
def PoseidonFn : Type := List Fr → Except Unit Fr

/-- Embeds `extract_rand_from_signature` (src/cryptos.rs): reverse the
signature bytes, chunk them into field elements, append the constant 1
field element, and Poseidon-hash. -/
def extract_rand_from_signature (poseidon : PoseidonFn) (signature : List Nat) :
    Except Unit Fr :=
  poseidon (bytes_chunk_fields signature.reverse 121 2 17 ++ [(1 : Fr)])

/-- Embeds `public_key_hash` (src/cryptos.rs). -/
def public_key_hash (poseidon : PoseidonFn) (public_key_n : List Nat) :
    Except Unit Fr :=
  poseidon (bytes_chunk_fields public_key_n 121 2 17)

/-- Embeds `email_nullifier` (src/cryptos.rs): Poseidon over the chunked
signature, then Poseidon once more over the single resulting element. -/
def email_nullifier (poseidon : PoseidonFn) (signature : List Nat) :
    Except Unit Fr :=
  (poseidon (bytes_chunk_fields signature 121 2 17)).bind
    fun sign_rand => poseidon [sign_rand]

/-! ## Hex conversions (src/converters.rs) -/

/-- Outcome of running a fallible Rust function, distinguishing an error
return value from an abort of the process (a panic). -/
inductive RunResult (α : Type) where
  | ok (a : α)
  | err
  | panic
deriving DecidableEq

/-- Value of one hexadecimal digit, as accepted by the hex crate. -/
def hexDigitVal (c : Char) : Option Nat :=
  if '0' ≤ c ∧ c ≤ '9' then some (c.toNat - 48)
  else if 'a' ≤ c ∧ c ≤ 'f' then some (c.toNat - 87)
  else if 'A' ≤ c ∧ c ≤ 'F' then some (c.toNat - 55)
  else none

/-- Behaviour of `hex::decode`: pairs of hex digits to bytes, failing on an
odd number of characters or a non-hex character. -/
def hexDecode : List Char → Option (List Nat)
  | [] => some []
  | [_] => none
  | c1 :: c2 :: rest =>
    match hexDigitVal c1, hexDigitVal c2, hexDecode rest with
    | some hi, some lo, some bs => some ((16 * hi + lo) :: bs)
    | _, _, _ => none

/-- Little-endian byte interpretation, the layout expected by
`Fr::from_bytes` of the halo2curves field library. -/
def leBytesVal : List Nat → Nat
  | [] => 0
  | b :: bs => b + 256 * leBytesVal bs

/-- Big-endian byte interpretation, as `U256::from_big_endian`. -/
def u256_from_big_endian (bytes : List Nat) : Nat :=
  bytes.foldl (fun acc b => acc * 256 + b) 0

/-- Embeds `hex_to_field` (src/converters.rs).  The input is modelled as a
list of characters.  Rust slices the first two string bytes, which aborts
on an input shorter than two bytes: that case is `panic`.  After the 0x
check the remainder is hex-decoded (error on failure), reversed, required
to be exactly 32 bytes (error otherwise), and passed to
`Fr::from_bytes(..).expect(..)`, which aborts when the little-endian value
is not below the field modulus: that case is `panic` as well. -/
def hex_to_field (input_hex : List Char) : RunResult Fr :=
  if input_hex.length < 2 then RunResult.panic
  else if input_hex.take 2 ≠ ['0', 'x'] then RunResult.err
  else
    match hexDecode (input_hex.drop 2) with
    | none => RunResult.err
    | some bytes0 =>
      let bytes := bytes0.reverse
      if bytes.length ≠ 32 then RunResult.err
      else if leBytesVal bytes < frModulus then
        RunResult.ok ((leBytesVal bytes : Nat) : Fr)
      else RunResult.panic

/-- Embeds `hex_to_u256` (src/converters.rs).  Rust drops the first two
string bytes (aborting on shorter inputs), hex-decodes the rest (its only
error return), and then copies the decoded bytes into a 32-byte array with
`copy_from_slice`, which aborts whenever the decoded length is not exactly
32 bytes. -/
def hex_to_u256 (hex : List Char) : RunResult Nat :=
  if hex.length < 2 then RunResult.panic
  else
    match hexDecode (hex.drop 2) with
    | none => RunResult.err
    | some bytes =>
      if bytes.length = 32 then RunResult.ok (u256_from_big_endian bytes)
      else RunResult.panic

/-! ## Command templates (src/command_templates.rs) -/

/-- Typed values extracted from a command, as `TemplateValue`
(src/command_templates.rs).  Ethereum addresses are represented by their
20-byte numeric value. -/
inductive TemplateValue where
  | str (s : List Char)
  | uint (n : Nat)
  | int (i : Int)
  | decimals (s : List Char)
  | ethAddr (a : Nat)
deriving DecidableEq

/-- Failure modes of `extract_template_vals`: a placeholder pattern with no
match in its token, a match that fails the whole-word check, an
out-of-bounds token index (a Rust panic), and an integer parse overflow
(an unwrap panic). -/
inductive TemplateError where
  | noMatch
  | notWholeWord
  | indexPanic
  | parsePanic
deriving DecidableEq

/-- Length of the longest prefix of `l` whose characters satisfy `p`. -/
def countWhile (p : Char → Bool) (l : List Char) : Nat :=
  (l.takeWhile p).length

/-- Leftmost maximal nonempty run of characters satisfying `p`, as the
match of the regex `p+`: start index and end index (exclusive). -/
def findRunAux (p : Char → Bool) : List Char → Nat → Option (Nat × Nat)
  | [], _ => none
  | c :: rest, i =>
    if p c then some (i, i + 1 + countWhile p rest)
    else findRunAux p rest (i + 1)

/-- First match of STRING_REGEX, the regex of one or more non-whitespace
characters. -/
def findString (tok : List Char) : Option (Nat × Nat) :=
  findRunAux (fun c => !c.isWhitespace) tok 0

/-- First match of UINT_REGEX, the regex of one or more decimal digits. -/
def findUint (tok : List Char) : Option (Nat × Nat) :=
  findRunAux Char.isDigit tok 0

/-- First match of INT_REGEX, the regex of an optional minus sign followed
by one or more decimal digits, leftmost-first. -/
def findIntAux : List Char → Nat → Option (Nat × Nat)
  | [], _ => none
  | c :: rest, i =>
    if c = '-' then
      match rest with
      | d :: rest2 =>
        if d.isDigit then some (i, i + 2 + countWhile Char.isDigit rest2)
        else findIntAux rest (i + 1)
      | [] => none
    else if c.isDigit then some (i, i + 1 + countWhile Char.isDigit rest)
    else findIntAux rest (i + 1)

/-- First match of INT_REGEX in a token. -/
def findInt (tok : List Char) : Option (Nat × Nat) :=
  findIntAux tok 0

/-- Hexadecimal digit as accepted by ETH_ADDR_REGEX. -/
def isHexChar (c : Char) : Bool :=
  c.isDigit || ('a' ≤ c && c ≤ 'f') || ('A' ≤ c && c ≤ 'F')

/-- First match of ETH_ADDR_REGEX, the regex of the two characters 0x
followed by exactly 40 hexadecimal digits; every match has length 42. -/
def findEthAddrAux : List Char → Nat → Option (Nat × Nat)
  | [], _ => none
  | c :: rest, i =>
    if c = '0' then
      match rest with
      | x :: rest2 =>
        if x = 'x' ∧ (rest2.take 40).length = 40 ∧ (rest2.take 40).all isHexChar = true then
          some (i, i + 42)
        else findEthAddrAux rest (i + 1)
      | [] => none
    else findEthAddrAux rest (i + 1)

/-- First match of ETH_ADDR_REGEX in a token. -/
def findEthAddr (tok : List Char) : Option (Nat × Nat) :=
  findEthAddrAux tok 0

/-- First match of DECIMALS_REGEX, the regex of one or more digits, a
literal dot, and one or more digits: since a digit run can never be
followed by a digit, the greedy first run needs no backtracking, and a
match exists at a position exactly when the maximal digit run from it is
followed by a dot and a further digit. -/
def findDecimalsAux : List Char → Nat → Option (Nat × Nat)
  | [], _ => none
  | c :: rest, i =>
    if c.isDigit then
      let d1 := 1 + countWhile Char.isDigit rest
      match (c :: rest).drop d1 with
      | dot :: r2 =>
        if dot = '.' ∧ 1 ≤ countWhile Char.isDigit r2 then
          some (i, i + d1 + 1 + countWhile Char.isDigit r2)
        else findDecimalsAux rest (i + 1)
      | [] => findDecimalsAux rest (i + 1)
    else findDecimalsAux rest (i + 1)

/-- First match of DECIMALS_REGEX in a token. -/
def findDecimals (tok : List Char) : Option (Nat × Nat) :=
  findDecimalsAux tok 0

/-- Splitting on whitespace as Rust's `split_whitespace`: maximal runs of
non-whitespace characters, empty tokens skipped. -/
def splitWsAux : List Char → List Char → List (List Char)
  | [], acc => if acc.isEmpty then [] else [acc.reverse]
  | c :: rest, acc =>
    if c.isWhitespace then
      if acc.isEmpty then splitWsAux rest []
      else acc.reverse :: splitWsAux rest []
    else splitWsAux rest (c :: acc)

/-- Embeds `input.split_whitespace().collect()` of
`extract_template_vals`. -/
def split_whitespace (l : List Char) : List (List Char) :=
  splitWsAux l []

/-- Index of the first occurrence of `pat` as a contiguous sub-sequence of
the list, if any. -/
def findSubAux (pat : List Char) : List Char → Nat → Option Nat
  | [], i => if pat.isEmpty then some i else none
  | c :: rest, i =>
    if pat.isPrefixOf (c :: rest) then some i
    else findSubAux pat rest (i + 1)

/-- Defensive stripping of a trailing HTML artifact: everything from the
first occurrence of the marker on is dropped, as the
`split("</div>")[0]` steps of `extract_template_vals`. -/
def stripDiv (s : List Char) : List Char :=
  match findSubAux ("</div>".toList) s 0 with
  | some i => s.take i
  | none => s

/-- Decimal digits to a natural number. -/
def digitsToNat (l : List Char) : Nat :=
  l.foldl (fun acc c => acc * 10 + (c.toNat - 48)) 0

/-- Hexadecimal digits to a natural number. -/
def hexDigitsToNat (l : List Char) : Nat :=
  l.foldl (fun acc c => acc * 16 + (hexDigitVal c).getD 0) 0

/-- One iteration of the template loop of `extract_template_vals`
(src/command_templates.rs): process `templates[input_idx]` against
`input_decomposed[input_idx]` and produce the extracted value, nothing for
a literal token, or the error aborting the loop. -/
def processTemplate (input_decomposed : List (List Char)) (input_idx : Nat)
    (template : String) : Except TemplateError (Option TemplateValue) :=
  if template = "{string}" then
    match input_decomposed[input_idx]? with
    | none => Except.error TemplateError.indexPanic
    | some tok =>
      match findString tok with
      | none => Except.error TemplateError.noMatch
      | some (s, e) =>
        if s ≠ 0 then Except.error TemplateError.notWholeWord
        else Except.ok (some (TemplateValue.str (stripDiv (tok.take e))))
  else if template = "{uint}" then
    match input_decomposed[input_idx]? with
    | none => Except.error TemplateError.indexPanic
    | some tok =>
      match findUint tok with
      | none => Except.error TemplateError.noMatch
      | some (s, e) =>
        if s ≠ 0 ∨ e ≠ tok.length then Except.error TemplateError.notWholeWord
        else
          let m := stripDiv ((tok.drop s).take (e - s))
          let v := digitsToNat m
          if v < 2 ^ 256 then Except.ok (some (TemplateValue.uint v))
          else Except.error TemplateError.parsePanic
  else if template = "{int}" then
    match input_decomposed[input_idx]? with
    | none => Except.error TemplateError.indexPanic
    | some tok =>
      match findInt tok with
      | none => Except.error TemplateError.noMatch
      | some (s, e) =>
        if s ≠ 0 ∨ e ≠ tok.length then Except.error TemplateError.notWholeWord
        else
          match stripDiv ((tok.drop s).take (e - s)) with
          | '-' :: ds =>
            let v := digitsToNat ds
            if v ≤ 2 ^ 255 then Except.ok (some (TemplateValue.int (-(v : Int))))
            else Except.error TemplateError.parsePanic
          | ds =>
            let v := digitsToNat ds
            if v < 2 ^ 255 then Except.ok (some (TemplateValue.int (v : Int)))
            else Except.error TemplateError.parsePanic
  else if template = "{decimals}" then
    match input_decomposed[input_idx]? with
    | none => Except.error TemplateError.indexPanic
    | some tok =>
      match findDecimals tok with
      | none => Except.error TemplateError.noMatch
      | some (s, e) =>
        if s ≠ 0 ∨ e ≠ tok.length then Except.error TemplateError.notWholeWord
        else Except.ok (some (TemplateValue.decimals (stripDiv ((tok.drop s).take (e - s)))))
  else if template = "{ethAddr}" then
    match input_decomposed[input_idx]? with
    | none => Except.error TemplateError.indexPanic
    | some tok =>
      match findEthAddr tok with
      | none => Except.error TemplateError.noMatch
      | some (s, e) =>
        if s ≠ 0 then Except.error TemplateError.notWholeWord
        else Except.ok (some (TemplateValue.ethAddr
          (hexDigitsToNat (((tok.drop s).take (e - s)).drop 2))))
  else Except.ok none

/-- The template loop of `extract_template_vals`: process each template at
its index, aborting at the first error and collecting the values. -/
def extractLoop (input_decomposed : List (List Char)) :
    Nat → List String → Except TemplateError (List TemplateValue)
  | _, [] => Except.ok []
  | idx, t :: ts =>
    match processTemplate input_decomposed idx t with
    | Except.error e => Except.error e
    | Except.ok v? =>
      match extractLoop input_decomposed (idx + 1) ts with
      | Except.error e => Except.error e
      | Except.ok rest =>
        Except.ok (match v? with
          | some v => v :: rest
          | none => rest)

/-- Embeds `extract_template_vals` (src/command_templates.rs): tokenize the
input on whitespace, then validate and extract each placeholder token. -/
def extract_template_vals (input : List Char) (templates : List String) :
    Except TemplateError (List TemplateValue) :=
  extractLoop (split_whitespace input) 0 templates

/-! ## Circuit input assembly (src/circuit.rs) -/

/-- JSON values, as far as the circuit-input objects need them. -/
inductive Json where
  | null
  | str (s : String)
  | num (n : Nat)
  | arr (xs : List Json)

/-- Serialization of a byte vector. -/
def jsonOfBytes (l : List Nat) : Json := Json.arr (l.map Json.num)

/-- Serde serialization of an optional byte vector without
`skip_serializing_if`: `None` becomes JSON null. -/
def jsonOfOptBytes : Option (List Nat) → Json
  | none => Json.null
  | some l => jsonOfBytes l

/-- Serde serialization of an optional integer without
`skip_serializing_if`: `None` becomes JSON null. -/
def jsonOfOptNum : Option Nat → Json
  | none => Json.null
  | some n => Json.num n

/-- Serialization of a vector of strings. -/
def jsonOfStrList (l : List String) : Json := Json.arr (l.map Json.str)

/-- Map insertion as on a `serde_json` object: replace the value of an
existing key, append a new key otherwise. -/
def insertKV : List (String × Json) → String → Json → List (String × Json)
  | [], k, v => [(k, v)]
  | (pk, pv) :: rest, k, v =>
    if pk == k then (k, v) :: rest else (pk, pv) :: insertKV rest k v

/-- Embeds the `CircuitInput` struct (src/circuit.rs) produced by
`generate_circuit_inputs`.  The precomputed SHA-256 state is represented
by the preimage prefix handed to the external `partial_sha` primitive. -/
structure CircuitInputR where
  header_padded : List Nat
  pubkey : List String
  signature : List String
  header_len_padded_bytes : Nat
  precomputed_sha : Option (List Nat)
  body_padded : Option (List Nat)
  body_len_padded_bytes : Option Nat
  body_hash_idx : Option Nat

/-- Embeds the `CircuitInputParams` struct (src/circuit.rs).  The SHA
precompute selector regex is abstracted by the matcher function it
induces on the trimmed body, as in `generate_partial_sha`. -/
structure CircuitInputParamsR where
  body : List Nat
  header : List Nat
  body_hash_idx : Nat
  rsa_signature : Nat
  rsa_public_key : Nat
  sha_precompute_selector : Option (List Nat → Option Nat)
  max_header_length : Nat
  max_body_length : Nat
  ignore_body_hash_check : Bool

/-- Embeds `generate_circuit_inputs` (src/circuit.rs).  The `assert!`
failures inside `sha256_pad`, the panic on a `generate_partial_sha` error
(`panic!("Failed to generate partial SHA...")`), and the non-termination
of its trim loop are all modelled by `none`. -/
def generate_circuit_inputs (params : CircuitInputParamsR) : Option CircuitInputR :=
  match sha256_pad params.header params.max_header_length with
  | none => none
  | some (header_padded, header_padded_len) =>
    let base : CircuitInputR :=
      { header_padded := header_padded
        pubkey := to_circom_bigint_bytes params.rsa_public_key
        signature := to_circom_bigint_bytes params.rsa_signature
        header_len_padded_bytes := header_padded_len
        precomputed_sha := none
        body_padded := none
        body_len_padded_bytes := none
        body_hash_idx := none }
    if params.ignore_body_hash_check then some base
    else
      let body_sha_length := (params.body.length + 63 + 65) / 64 * 64
      match sha256_pad params.body (Nat.max params.max_body_length body_sha_length) with
      | none => none
      | some (body_padded, body_padded_len) =>
        match generate_partial_sha body_padded body_padded_len
            params.sha_precompute_selector params.max_body_length with
        | none => none
        | some (Except.error _) => none
        | some (Except.ok (precomputed_sha, body_remaining, body_remaining_length)) =>
          some { base with
            precomputed_sha := some precomputed_sha
            body_hash_idx := some params.body_hash_idx
            body_padded := some body_remaining
            body_len_padded_bytes := some body_remaining_length }

/-- Embeds the `EmailCircuitInput` struct (src/circuit.rs), whose serde
derive serializes every field, `None` as null, except `subject_idx`, the
only field carrying `skip_serializing_if = Option::is_none`. -/
structure EmailCircuitInput where
  padded_header : List Nat
  padded_body : Option (List Nat)
  body_hash_idx : Option Nat
  public_key : List String
  signature : List String
  padded_header_len : Nat
  padded_body_len : Option Nat
  precomputed_sha : Option (List Nat)
  account_code : String
  from_addr_idx : Nat
  subject_idx : Option Nat
  domain_idx : Nat
  timestamp_idx : Nat
  code_idx : Nat
  command_idx : Nat
  padded_cleaned_body : Option (List Nat)

/-- Serde serialization of `EmailCircuitInput` to a JSON object: the
fields in declaration order, optional fields as null when absent, except
`subject_idx` which is omitted entirely when `None`. -/
def serializeEmailCircuitInput (x : EmailCircuitInput) : List (String × Json) :=
  [("padded_header", jsonOfBytes x.padded_header),
   ("padded_body", jsonOfOptBytes x.padded_body),
   ("body_hash_idx", jsonOfOptNum x.body_hash_idx),
   ("public_key", jsonOfStrList x.public_key),
   ("signature", jsonOfStrList x.signature),
   ("padded_header_len", Json.num x.padded_header_len),
   ("padded_body_len", jsonOfOptNum x.padded_body_len),
   ("precomputed_sha", jsonOfOptBytes x.precomputed_sha),
   ("account_code", Json.str x.account_code),
   ("from_addr_idx", Json.num x.from_addr_idx)]
  ++ (match x.subject_idx with
      | none => []
      | some s => [("subject_idx", Json.num s)])
  ++ [("domain_idx", Json.num x.domain_idx),
      ("timestamp_idx", Json.num x.timestamp_idx),
      ("code_idx", Json.num x.code_idx),
      ("command_idx", Json.num x.command_idx),
      ("padded_cleaned_body", jsonOfOptBytes x.padded_cleaned_body)]

/-- Embeds the construction of the `EmailCircuitInput` value at the end of
`generate_email_circuit_input` (src/circuit.rs), from the outputs of
`generate_circuit_inputs` and the extracted indices. -/
def buildEmailAuthInput (inputs : CircuitInputR) (account_code : String)
    (from_addr_idx : Nat) (subject_idx : Option Nat)
    (domain_idx timestamp_idx code_idx command_idx : Nat)
    (padded_cleaned_body : Option (List Nat)) : EmailCircuitInput :=
  { padded_header := inputs.header_padded
    public_key := inputs.pubkey
    signature := inputs.signature
    padded_header_len := inputs.header_len_padded_bytes
    account_code := account_code
    from_addr_idx := from_addr_idx
    subject_idx := subject_idx
    domain_idx := domain_idx
    timestamp_idx := timestamp_idx
    code_idx := code_idx
    padded_body := inputs.body_padded
    body_hash_idx := inputs.body_hash_idx
    padded_body_len := inputs.body_len_padded_bytes
    precomputed_sha := inputs.precomputed_sha
    command_idx := command_idx
    padded_cleaned_body := padded_cleaned_body }

/-- Embeds `compute_signal_length` (src/circuit.rs). -/
def compute_signal_length (max_length : Nat) : Nat :=
  max_length / 31 + if max_length % 31 ≠ 0 then 1 else 0

/-- Embeds the parameter struct of the decomposed-regexes entry point
(src/circuit.rs). -/
structure DecomposedCircuitParams where
  prover_eth_address : Option (List Char)
  max_header_length : Nat
  max_body_length : Nat
  ignore_body_hash_check : Bool
  remove_soft_lines_breaks : Bool

/-- Embeds the JSON assembly of
`generate_circuit_inputs_with_decomposed_regexes_and_external_inputs`
(src/circuit.rs), from the `generate_circuit_inputs` output onward.  The
external regex engine (`extract_substr_idxes`) is the out-of-scope
collaborator, abstracted by the list of extracted
(regex name, first-match index) pairs; each external input is likewise
given by its name, the chunk strings produced by
`string_to_circom_bigint_bytes` for its value, and its maximum length.
The four body keys are inserted only when the body hash check is not
ignored; the cleaned body is inserted when soft line break removal is
requested; then come the regex indices, the padded external inputs, and
`proverETHAddress`, whose computation propagates the error or the panic
of `hex_to_u256`. -/
def generate_circuit_inputs_with_decomposed_regexes_and_external_inputs
    (inputs : CircuitInputR) (params : DecomposedCircuitParams)
    (cleaned_body : Option (List Nat))
    (regexIdxResults : List (String × Nat))
    (externalInputChunks : List (String × List String × Nat)) :
    RunResult (List (String × Json)) :=
  let base := [("emailHeader", jsonOfBytes inputs.header_padded),
               ("emailHeaderLength", Json.num inputs.header_len_padded_bytes),
               ("pubkey", jsonOfStrList inputs.pubkey),
               ("signature", jsonOfStrList inputs.signature)]
  let o1 := if params.ignore_body_hash_check then base else
    insertKV (insertKV (insertKV (insertKV base
      "bodyHashIndex" (jsonOfOptNum inputs.body_hash_idx))
      "precomputedSHA" (jsonOfOptBytes inputs.precomputed_sha))
      "emailBody" (jsonOfOptBytes inputs.body_padded))
      "emailBodyLength" (jsonOfOptNum inputs.body_len_padded_bytes)
  let o2 := if params.remove_soft_lines_breaks then
      insertKV o1 "decodedEmailBodyIn" (jsonOfOptBytes cleaned_body)
    else o1
  let o3 := regexIdxResults.foldl
    (fun obj p => insertKV obj (p.1 ++ "RegexIdx") (Json.num p.2)) o2
  let o4 := externalInputChunks.foldl
    (fun obj p =>
      let signal_length := compute_signal_length p.2.2
      let value := if p.2.1.length < signal_length then
          p.2.1 ++ List.replicate (signal_length - p.2.1.length) (Nat.repr 0)
        else p.2.1
      insertKV obj p.1 (jsonOfStrList value)) o3
  match params.prover_eth_address with
  | some addr =>
    match hex_to_u256 addr with
    | RunResult.ok v => RunResult.ok (insertKV o4 "proverETHAddress" (Json.str (Nat.repr v)))
    | RunResult.err => RunResult.err
    | RunResult.panic => RunResult.panic
  | none => RunResult.ok (insertKV o4 "proverETHAddress" (Json.str "0"))

/-- Lookup of a key in the JSON object carried by a `RunResult`, `none`
when the computation did not return an object. -/
def lookupRun (r : RunResult (List (String × Json))) (k : String) : Option Json :=
  match r with
  | RunResult.ok obj => obj.lookup k
  | RunResult.err => none
  | RunResult.panic => none

/-- The four body-related keys of the decomposed-regexes circuit input. -/
def bodyKeys : List String :=
  ["bodyHashIndex", "precomputedSHA", "emailBody", "emailBodyLength"]

/-- Concrete parameters with the body hash check ignored, used to evaluate
the pipeline on a concrete input. -/
def cp4 : CircuitInputParamsR :=
  { body := []
    header := []
    body_hash_idx := 0
    rsa_signature := 0
    rsa_public_key := 0
    sha_precompute_selector := none
    max_header_length := 64
    max_body_length := 64
    ignore_body_hash_check := true }

/-- Empty circuit input record, used as the default of `Option.getD`. -/
def emptyCircuitInput : CircuitInputR :=
  { header_padded := []
    pubkey := []
    signature := []
    header_len_padded_bytes := 0
    precomputed_sha := none
    body_padded := none
    body_len_padded_bytes := none
    body_hash_idx := none }

/-- The well-formed 20-byte Ethereum address from the repository's own
tests (tests in src/circuit.rs pass exactly this value as
`prover_eth_address`). -/
def ethAddrInput : List Char := "0x9401296121FC9B78F84fc856B1F8dC88f4415B2e".toList

/-- A token whose ETH_ADDR_REGEX match is a proper prefix: the 42-character
address immediately followed by two further hex characters. -/
def ethPrefixTok : List Char := "0x9401296121FC9B78F84fc856B1F8dC88f4415B2eff".toList

/-- The command input of the specification scenario. -/
def sendOkInput : List Char :=
  "Send 100 tokens to 0x9401296121FC9B78F84fc856B1F8dC88f4415B2e".toList

/-- The same command with a token only prefix-matched by the uint
pattern. -/
def sendBadInput : List Char :=
  "Send 100x tokens to 0x9401296121FC9B78F84fc856B1F8dC88f4415B2e".toList

/-- The command template of the specification scenario. -/
def sendTemplates : List String := ["Send", "{uint}", "tokens", "to", "{ethAddr}"]

/-- A 64-byte body ending in a CRLF pair. -/
def body64 : List Nat := List.replicate 62 0 ++ [13, 10]

/-- A 0x-prefixed 64-digit hex string whose 32-byte value is above the
field modulus. -/
def ffHex : List Char := '0' :: 'x' :: List.replicate 64 'f'

/-- A 0x-prefixed 64-digit hex string whose 32-byte value is zero. -/
def zeroHex : List Char := '0' :: 'x' :: List.replicate 64 '0'

/-! ### Lemmas about the chunked encoding -/

theorem bigIntChunkVals_length (bits : Nat) :
    ∀ k num, (bigIntChunkVals num bits k).length = k := by
  intro k
  induction k with
  | zero => intro num; rfl
  | succ k ih => intro num; simp [bigIntChunkVals, ih]

theorem bigIntChunkVals_lt (bits : Nat) :
    ∀ k num, ∀ c ∈ bigIntChunkVals num bits k, c < 2 ^ bits := by
  intro k
  induction k with
  | zero => intro num c hc; simp [bigIntChunkVals] at hc
  | succ k ih =>
    intro num c hc
    simp only [bigIntChunkVals, List.mem_cons] at hc
    rcases hc with h | h
    · subst h; exact Nat.mod_lt _ (Nat.pos_pow_of_pos bits (by omega))
    · exact ih _ c h

theorem chunkSum_bigIntChunkVals (bits : Nat) :
    ∀ k num, chunkSum bits (bigIntChunkVals num bits k) = num % 2 ^ (bits * k) := by
  intro k
  induction k with
  | zero => intro num; simp [bigIntChunkVals, chunkSum, Nat.mod_one]
  | succ k ih =>
    intro num
    simp only [bigIntChunkVals, chunkSum, ih]
    rw [Nat.shiftRight_eq_div_pow]
    have h : 2 ^ (bits * (k + 1)) = 2 ^ bits * 2 ^ (bits * k) := by
      rw [← pow_add]; ring_nf
    rw [h, Nat.mod_mul]

/-! ### Big-endian parse round-trip -/

theorem lor_mul_two_pow_eq_add (k : Nat) :
    ∀ a b : Nat, b < 2 ^ k → (a * 2 ^ k) ||| b = a * 2 ^ k + b := by
  induction k with
  | zero =>
    intro a b hb
    interval_cases b
    simp
  | succ k ih =>
    intro a b hb
    have hbit : Nat.bit (Nat.bodd b) (Nat.div2 b) = b := Nat.bit_decomp b
    have ha : a * 2 ^ (k + 1) = Nat.bit false (a * 2 ^ k) := by
      simp only [Nat.bit, Nat.pow_succ, cond_false]
      ring
    have hdiv : Nat.div2 b < 2 ^ k := by
      have h1 := Nat.bodd_add_div2 b
      have h2 : 2 ^ (k + 1) = 2 * 2 ^ k := by ring
      cases hB : Nat.bodd b <;> simp [hB] at h1 <;> omega
    calc (a * 2 ^ (k + 1)) ||| b
        = Nat.bit false (a * 2 ^ k) ||| Nat.bit (Nat.bodd b) (Nat.div2 b) := by
          rw [ha, hbit]
      _ = Nat.bit (false || Nat.bodd b) ((a * 2 ^ k) ||| Nat.div2 b) :=
          Nat.lor_bit false (a * 2 ^ k) (Nat.bodd b) (Nat.div2 b)
      _ = Nat.bit (Nat.bodd b) (a * 2 ^ k + Nat.div2 b) := by
          rw [Bool.false_or, ih _ _ hdiv]
      _ = a * 2 ^ (k + 1) + b := by
          have h1 := Nat.bodd_add_div2 b
          have hx : a * 2 ^ (k + 1) = 2 * (a * 2 ^ k) := by ring
          cases hB : Nat.bodd b <;>
            simp only [hB, Nat.bit, cond_true, cond_false, Bool.toNat_true,
              Bool.toNat_false] at h1 ⊢ <;> omega

theorem foldl_beBytesAux (k : Nat) :
    ∀ m acc, (beBytesAux k m).foldl (fun acc b => (acc <<< 8) ||| b) acc
      = acc * 2 ^ (8 * k) + m % 2 ^ (8 * k) := by
  induction k with
  | zero =>
    intro m acc
    simp [beBytesAux, Nat.mod_one]
  | succ k ih =>
    intro m acc
    simp only [beBytesAux, List.foldl_cons]
    rw [ih]
    have hb : (m >>> (8 * k)) % 256 < 2 ^ 8 := Nat.mod_lt _ (by norm_num)
    rw [Nat.shiftLeft_eq, lor_mul_two_pow_eq_add 8 acc _ hb]
    rw [Nat.shiftRight_eq_div_pow]
    have hsplit : m % 2 ^ (8 * (k + 1))
        = m % 2 ^ (8 * k) + 2 ^ (8 * k) * (m / 2 ^ (8 * k) % 2 ^ 8) := by
      have h : 2 ^ (8 * (k + 1)) = 2 ^ (8 * k) * 2 ^ 8 := by
        rw [← pow_add]; ring_nf
      rw [h, Nat.mod_mul]
    have h256 : (256 : Nat) = 2 ^ 8 := by norm_num
    rw [h256, hsplit]
    have hpow : 2 ^ (8 * (k + 1)) = 2 ^ (8 * k) * 2 ^ 8 := by
      rw [← pow_add]; ring_nf
    rw [hpow]
    ring

theorem vec_u8_to_bigint_int64_to_bytes (n : Nat) (h : n < 2 ^ 64) :
    vec_u8_to_bigint (int64_to_bytes n) = n := by
  unfold vec_u8_to_bigint int64_to_bytes
  rw [foldl_beBytesAux]
  have h2 : (8 : Nat) * 8 = 64 := by norm_num
  rw [h2]
  have h3 : n % 2 ^ 64 = n := Nat.mod_eq_of_lt h
  rw [h3, h3]
  simp

theorem beBytesAux_length (k m : Nat) : (beBytesAux k m).length = k := by
  induction k with
  | zero => rfl
  | succ k ih => simp [beBytesAux, ih]

theorem int64_to_bytes_length (n : Nat) : (int64_to_bytes n).length = 8 :=
  beBytesAux_length 8 _

theorem int64_to_bytes_zero : int64_to_bytes 0 = List.replicate 8 0 := by decide

/-! ### Lemmas about the padding loops -/

theorem padUntilAligned_spec (l : List Nat) :
    ∃ z, padUntilAligned l = l ++ List.replicate z 0 ∧
      (l.length + z) % 64 = 56 ∧ z < 64 := by
  generalize hμ : (120 - l.length % 64) % 64 = μ
  induction μ using Nat.strong_induction_on generalizing l with
  | _ μ ih =>
    rw [padUntilAligned]
    by_cases hc : (l.length * 8 + 64) % 512 = 0
    · refine ⟨0, by simp [hc], ?_, by omega⟩
      have h8 : (l.length * 8 + 64) % 512 = 8 * ((l.length + 8) % 64) := by
        have h1 : l.length * 8 + 64 = 8 * (l.length + 8) := by ring
        rw [h1]
        have h2 : (512 : Nat) = 8 * 64 := by norm_num
        rw [h2, Nat.mul_mod_mul_left]
      rw [h8] at hc
      omega
    · simp only [hc, if_false]
      have h8 : (l.length * 8 + 64) % 512 = 8 * ((l.length + 8) % 64) := by
        have h1 : l.length * 8 + 64 = 8 * (l.length + 8) := by ring
        rw [h1]
        have h2 : (512 : Nat) = 8 * 64 := by norm_num
        rw [h2, Nat.mul_mod_mul_left]
      rw [h8] at hc
      have hr : l.length % 64 ≠ 56 := by omega
      have hlen : (merge_u8_arrays l (int8_to_bytes 0)).length = l.length + 1 := by
        simp [merge_u8_arrays, int8_to_bytes]
      have hdec : (120 - (l.length + 1) % 64) % 64 < μ := by
        subst hμ; omega
      obtain ⟨z, hz1, hz2, hz3⟩ := ih _ hdec (merge_u8_arrays l (int8_to_bytes 0)) (by rw [hlen])
      refine ⟨z + 1, ?_, ?_, ?_⟩
      · rw [hz1]
        simp [merge_u8_arrays, int8_to_bytes, List.replicate_succ]
      · rw [hlen] at hz2; omega
      · rw [hlen] at hz2
        omega

theorem extendToMax_spec (l : List Nat) (maxBytes : Nat)
    (hle : l.length ≤ maxBytes) (hmod : (maxBytes - l.length) % 8 = 0) :
    extendToMax l maxBytes = l ++ List.replicate (maxBytes - l.length) 0 := by
  generalize hμ : maxBytes - l.length = μ
  induction μ using Nat.strong_induction_on generalizing l with
  | _ μ ih =>
    rw [extendToMax]
    by_cases hc : l.length < maxBytes
    · simp only [hc, if_true]
      have hlen : (merge_u8_arrays l (int64_to_bytes 0)).length = l.length + 8 := by
        simp [merge_u8_arrays, int64_to_bytes_length]
      have h8 : 8 ≤ maxBytes - l.length := by omega
      have hdec : maxBytes - (l.length + 8) < μ := by omega
      have ha1 : (merge_u8_arrays l (int64_to_bytes 0)).length ≤ maxBytes := by
        rw [hlen]; omega
      have ha2 : (maxBytes - (merge_u8_arrays l (int64_to_bytes 0)).length) % 8 = 0 := by
        rw [hlen]; omega
      have ha3 : maxBytes - (merge_u8_arrays l (int64_to_bytes 0)).length
          = maxBytes - (l.length + 8) := by rw [hlen]
      have hrec := ih _ hdec (merge_u8_arrays l (int64_to_bytes 0)) ha1 ha2 ha3
      rw [hrec]
      simp only [merge_u8_arrays, int64_to_bytes_zero, hlen, List.append_assoc]
      rw [← List.replicate_add]
      congr 2
      omega
    · simp only [hc, if_false]
      have h0 : μ = 0 := by omega
      subst h0
      simp

theorem sha256_pad_eq (data : List Nat) (max_sha_bytes : Nat)
    (h64 : max_sha_bytes % 64 = 0) (hlen : data.length + 9 ≤ max_sha_bytes) :
    ∃ z, sha256_pad data max_sha_bytes
        = some (data ++ [0x80] ++ List.replicate z 0 ++ int64_to_bytes (data.length * 8)
            ++ List.replicate (max_sha_bytes - (data.length + 9 + z)) 0,
            data.length + 9 + z) ∧
      (data.length + 9 + z) % 64 = 0 ∧ z < 64 ∧ data.length + 9 + z ≤ max_sha_bytes := by
  obtain ⟨z, hz1, hz2, hz3⟩ := padUntilAligned_spec (data ++ [0x80])
  have hd1len : (data ++ [0x80] : List Nat).length = data.length + 1 := by simp
  rw [hd1len] at hz2
  have hmsg : (data.length + 9 + z) % 64 = 0 := by omega
  have hmsgle : data.length + 9 + z ≤ max_sha_bytes := by
    by_contra hgt
    push_neg at hgt
    omega
  refine ⟨z, ?_, hmsg, hz3, hmsgle⟩
  simp only [sha256_pad, merge_u8_arrays, int8_to_bytes]
  rw [show data ++ [0x80] = data ++ [0x80] from rfl] at hz1
  rw [hz1]
  have hd3len : ((data ++ [0x80] ++ List.replicate z 0)
      ++ int64_to_bytes (data.length * 8)).length = data.length + 9 + z := by
    simp only [List.length_append, List.length_replicate, List.length_cons,
      List.length_nil, int64_to_bytes_length]
    omega
  have hassert : (data.length + 9 + z) * 8 % 512 = 0 := by
    have h1 : (data.length + 9 + z) * 8 = 8 * (data.length + 9 + z) := by ring
    rw [h1]
    have h2 : (512 : Nat) = 8 * 64 := by norm_num
    rw [h2, Nat.mul_mod_mul_left, hmsg, Nat.mul_zero]
  have hext := extendToMax_spec
    ((data ++ [0x80] ++ List.replicate z 0) ++ int64_to_bytes (data.length * 8))
    max_sha_bytes (by rw [hd3len]; omega) (by rw [hd3len]; omega)
  rw [hd3len] at hext
  have hfinal : (((data ++ [0x80] ++ List.replicate z 0) ++ int64_to_bytes (data.length * 8))
      ++ List.replicate (max_sha_bytes - (data.length + 9 + z)) 0).length = max_sha_bytes := by
    simp only [List.length_append, List.length_replicate, List.length_cons,
      List.length_nil, int64_to_bytes_length]
    omega
  simp only [hd3len, hassert, ne_eq, not_true_eq_false, if_false, ite_false,
    not_false_eq_true, hext, hfinal, if_true, ite_true]

/-! ### Lemmas about the trim loop -/

theorem stripLoopRev_isSome (l : List Nat) :
    (stripLoopRev l).isSome ↔ ∃ u v : List Nat, l = u ++ 10 :: 13 :: v := by
  induction l using stripLoopRev.induct with
  | case1 rest =>
    simp only [stripLoopRev, Option.isSome_some, true_iff]
    exact ⟨[], rest, rfl⟩
  | case2 =>
    rw [show stripLoopRev [] = none from rfl]
    simp only [Option.isSome_none, Bool.false_eq_true, false_iff]
    rintro ⟨u, v, hu⟩
    simp at hu
  | case3 a rest hne ih =>
    simp only [stripLoopRev]
    rw [ih]
    constructor
    · rintro ⟨u, v, hu⟩
      exact ⟨a :: u, v, by simp [hu]⟩
    · rintro ⟨u, v, hu⟩
      cases u with
      | nil =>
        simp only [List.nil_append, List.cons.injEq] at hu
        exact (hne v hu.1 hu.2).elim
      | cons x u =>
        simp only [List.cons_append, List.cons.injEq] at hu
        exact ⟨u, v, hu.2⟩

theorem stripLoopRev_suffix (l : List Nat) :
    ∀ r, stripLoopRev l = some r → r.length ≤ l.length := by
  induction l using stripLoopRev.induct with
  | case1 rest =>
    intro r hr
    simp only [stripLoopRev, Option.some.injEq] at hr
    subst hr
    exact Nat.le_refl _
  | case2 =>
    intro r hr
    simp [stripLoopRev] at hr
  | case3 a rest hne ih =>
    intro r hr
    simp only [stripLoopRev] at hr
    have := ih r hr
    simp only [List.length_cons]
    omega

theorem stripShaPadding_isSome (body : List Nat) :
    (stripShaPadding body).isSome ↔ ∃ s t : List Nat, body = s ++ 13 :: 10 :: t := by
  unfold stripShaPadding
  rw [show ((stripLoopRev body.reverse).map List.reverse).isSome
    = (stripLoopRev body.reverse).isSome from by cases stripLoopRev body.reverse <;> simp]
  rw [stripLoopRev_isSome]
  constructor
  · rintro ⟨u, v, hu⟩
    refine ⟨v.reverse, u.reverse, ?_⟩
    have h := congrArg List.reverse hu
    simpa using h
  · rintro ⟨s, t, hst⟩
    refine ⟨t.reverse, s.reverse, ?_⟩
    rw [hst]
    simp

theorem stripShaPadding_length_le (body trimmed : List Nat)
    (h : stripShaPadding body = some trimmed) : trimmed.length ≤ body.length := by
  unfold stripShaPadding at h
  cases hr : stripLoopRev body.reverse with
  | none => rw [hr] at h; simp at h
  | some r =>
    rw [hr] at h
    injection h with h
    have hle := stripLoopRev_suffix body.reverse r hr
    rw [← h]
    simpa using hle

theorem removeQpAux_sublist (l : List Nat) : List.Sublist (removeQpAux l) l := by
  induction l using removeQpAux.induct with
  | case1 rest ih =>
    simp only [removeQpAux]
    exact ((ih.cons 10).cons 13).cons 61
  | case2 b rest hne ih =>
    simp only [removeQpAux]
    exact ih.cons₂ b
  | case3 => exact List.Sublist.refl []

theorem removeQpAux_length_le (l : List Nat) : (removeQpAux l).length ≤ l.length :=
  (removeQpAux_sublist l).length_le

theorem chunksOfAux_length (n : Nat) (hn : 1 ≤ n) :
    ∀ fuel (l : List α), l.length ≤ fuel →
      (chunksOfAux fuel n l).length = (l.length + n - 1) / n := by
  intro fuel
  induction fuel with
  | zero =>
    intro l hl
    have h0 : l = [] := List.length_eq_zero.mp (by omega)
    subst h0
    simp only [chunksOfAux, List.length_nil]
    rw [Nat.div_eq_of_lt (by omega)]
  | succ fuel ih =>
    intro l hl
    cases l with
    | nil =>
      simp only [chunksOfAux, List.length_nil]
      rw [Nat.div_eq_of_lt (by omega)]
    | cons x xs =>
      have hL : (x :: xs).length = xs.length + 1 := rfl
      have hdrop : ((x :: xs).drop n).length = xs.length + 1 - n := by
        simp [List.length_drop]
      have hrec := ih ((x :: xs).drop n) (by rw [hdrop]; omega)
      simp only [chunksOfAux, List.length_cons, hrec, hdrop]
      have heq : xs.length + 1 + n - 1 = (xs.length + 1 - 1) + n := by omega
      rw [heq, Nat.add_div_right _ (by omega)]
      by_cases hc : xs.length + 1 ≤ n
      · have h1 : xs.length + 1 - n = 0 := by omega
        rw [h1]
        rw [Nat.div_eq_of_lt (by omega)]
        rw [Nat.div_eq_of_lt (by omega)]
      · have h2 : xs.length + 1 - n + n - 1 = (xs.length + 1 - 1 - n) + n := by omega
        rw [h2, Nat.add_div_right _ (by omega)]
        congr 1
        have h3 : xs.length + 1 - 1 = (xs.length + 1 - 1 - n) + n := by omega
        rw [h3, Nat.add_div_right _ (by omega), Nat.add_sub_cancel]

theorem chunksOf_length (n : Nat) (hn : 1 ≤ n) (l : List α) :
    (chunksOf n l).length = (l.length + n - 1) / n :=
  chunksOfAux_length n hn l.length l (Nat.le_refl _)

theorem flatMap_const_length (l : List Nat) (f : Nat → List Nat)
    (h : ∀ x, (f x).length = 8) : (l.flatMap f).length = 8 * l.length := by
  induction l with
  | nil => simp
  | cons x xs ih =>
    simp only [List.flatMap_cons, List.length_append, h, ih, List.length_cons]
    ring

theorem bytes_chunk_fields_length_nine (bytes : List Nat)
    (h : bytes.length ≤ 257) :
    (bytes_chunk_fields bytes 121 2 17).length = 9 := by
  unfold bytes_chunk_fields
  have hmax : 17 * 121 / 8 = 257 := by norm_num
  simp only [hmax]
  set padded := if bytes.length < 257 then
      bytes ++ List.replicate (257 - bytes.length) 0
    else bytes with hpadded
  have hplen : padded.length = 257 := by
    rw [hpadded]
    by_cases hc : bytes.length < 257
    · simp only [hc, if_true, List.length_append, List.length_replicate]
      omega
    · simp only [hc, if_false]
      omega
  have hbits : (padded.flatMap
      (fun byte => (List.range 8).map fun i => (byte >>> i) &&& 1)).length = 2056 := by
    rw [flatMap_const_length _ _ (fun x => by simp), hplen]
  rw [List.length_map, chunksOf_length 2 (by omega), List.length_map,
    chunksOf_length 121 (by omega), hbits]

/-! ### Lemmas about key presence -/

theorem lookup_insertKV_ne (obj : List (String × Json)) (k k' : String) (v : Json)
    (hne : k' ≠ k) : (insertKV obj k v).lookup k' = obj.lookup k' := by
  induction obj with
  | nil =>
    have h1 : (k' == k) = false := beq_false_of_ne hne
    simp only [insertKV, List.lookup]
    rw [h1]
  | cons p rest ih =>
    obtain ⟨pk, pv⟩ := p
    simp only [insertKV]
    cases hpk : (pk == k) with
    | true =>
      have hk : pk = k := eq_of_beq hpk
      have h1 : (k' == k) = false := beq_false_of_ne hne
      have h2 : (k' == pk) = false := by rw [hk]; exact h1
      simp only [if_true, List.lookup]
      rw [h1, h2]
    | false =>
      simp only [Bool.false_eq_true, if_false, List.lookup]
      cases hq : (k' == pk) with
      | true => rfl
      | false => exact ih

theorem lookup_insertKV_self (obj : List (String × Json)) (k : String) (v : Json) :
    (insertKV obj k v).lookup k = some v := by
  induction obj with
  | nil =>
    simp only [insertKV, List.lookup, beq_self_eq_true]
  | cons p rest ih =>
    obtain ⟨pk, pv⟩ := p
    simp only [insertKV]
    cases hpk : (pk == k) with
    | true =>
      simp only [if_true, List.lookup, beq_self_eq_true]
    | false =>
      have h2 : (k == pk) = false := by
        cases hq : (k == pk) with
        | true =>
          have := eq_of_beq hq
          rw [this, beq_self_eq_true] at hpk
          exact absurd hpk (by simp)
        | false => rfl
      simp only [Bool.false_eq_true, if_false, List.lookup]
      rw [h2]
      exact ih

theorem lookup_insertKV_isSome (obj : List (String × Json)) (k k' : String) (v : Json)
    (h : (obj.lookup k).isSome) : ((insertKV obj k' v).lookup k).isSome := by
  by_cases hk : k = k'
  · subst hk
    rw [lookup_insertKV_self]
    rfl
  · rw [lookup_insertKV_ne obj k' k v hk]
    exact h

theorem lookup_foldl_preserve {β : Type} (k : String)
    (f : List (String × Json) → β → List (String × Json)) :
    ∀ (L : List β) (obj : List (String × Json)),
      (∀ o p, p ∈ L → (f o p).lookup k = o.lookup k) →
      (L.foldl f obj).lookup k = obj.lookup k := by
  intro L
  induction L with
  | nil => intro obj _; rfl
  | cons p rest ih =>
    intro obj hf
    simp only [List.foldl_cons]
    rw [ih (f obj p) (fun o q hq => hf o q (List.mem_cons_of_mem p hq))]
    exact hf obj p (List.mem_cons_self p rest)

theorem lookup_foldl_isSome {β : Type} (k : String)
    (f : List (String × Json) → β → List (String × Json)) :
    ∀ (L : List β) (obj : List (String × Json)),
      (∀ o p, ((o.lookup k).isSome : Prop) → ((f o p).lookup k).isSome) →
      (obj.lookup k).isSome → ((L.foldl f obj).lookup k).isSome := by
  intro L
  induction L with
  | nil => intro obj _ h; exact h
  | cons p rest ih =>
    intro obj hf h
    simp only [List.foldl_cons]
    exact ih (f obj p) hf (hf obj p h)

/-! ## Claim theorems -/

/-- C1: for every byte string d and every maxLen that is a multiple of 64
and at least d.len()+9, sha256_pad(d, maxLen) returns a padded buffer of
length exactly maxLen together with a messageLength that is a multiple of
64, where the first messageLength bytes consist of d, then the byte 0x80,
then zero bytes, then the bit-length d.len()*8 encoded as 8 big-endian
bytes (parsed back by the repository's own big-endian fold). -/
theorem C1_sha256_pad_correct (d : List Nat) (maxLen : Nat)
    (h64 : maxLen % 64 = 0) (hlen : d.length + 9 ≤ maxLen)
    (hbits : d.length * 8 < 2 ^ 64) :
    ∃ (padded : List Nat) (messageLength z : Nat),
      sha256_pad d maxLen = some (padded, messageLength) ∧
      padded.length = maxLen ∧
      messageLength % 64 = 0 ∧
      messageLength ≤ maxLen ∧
      padded.take messageLength
        = d ++ [0x80] ++ List.replicate z 0 ++ int64_to_bytes (d.length * 8) ∧
      vec_u8_to_bigint (int64_to_bytes (d.length * 8)) = d.length * 8 := by
  obtain ⟨z, h1, h2, h3, h4⟩ := sha256_pad_eq d maxLen h64 hlen
  refine ⟨_, _, z, h1, ?_, h2, h4, ?_, vec_u8_to_bigint_int64_to_bytes _ hbits⟩
  · simp only [List.length_append, List.length_replicate, List.length_cons,
      List.length_nil, int64_to_bytes_length]
    omega
  · have hassoc : d ++ [0x80] ++ List.replicate z 0 ++ int64_to_bytes (d.length * 8)
        ++ List.replicate (maxLen - (d.length + 9 + z)) 0
        = (d ++ [0x80] ++ List.replicate z 0 ++ int64_to_bytes (d.length * 8))
          ++ List.replicate (maxLen - (d.length + 9 + z)) 0 := by
      simp [List.append_assoc]
    rw [hassoc]
    apply List.take_left'
    simp only [List.length_append, List.length_replicate, List.length_cons,
      List.length_nil, int64_to_bytes_length]
    omega

/-- Witness for C1 at the empty message and maxLen 64. -/
theorem C1_sha256_pad_correct_witness :
    (64 : Nat) % 64 = 0 ∧ List.length ([] : List Nat) + 9 ≤ 64 ∧
    (∃ (padded : List Nat) (messageLength z : Nat),
      sha256_pad [] 64 = some (padded, messageLength) ∧
      padded.length = 64 ∧
      messageLength % 64 = 0 ∧
      messageLength ≤ 64 ∧
      padded.take messageLength
        = [] ++ [0x80] ++ List.replicate z 0
          ++ int64_to_bytes (List.length ([] : List Nat) * 8) ∧
      vec_u8_to_bigint (int64_to_bytes (List.length ([] : List Nat) * 8))
        = List.length ([] : List Nat) * 8) :=
  ⟨rfl, by norm_num,
    C1_sha256_pad_correct [] 64 rfl (by norm_num) (by norm_num)⟩

/-- C2: for every non-negative integer n fitting in 2057 bits,
to_circom_bigint_bytes(n) produces exactly 17 decimal-string chunks, each
representing a value below 2^121 (the chunk strings are the decimal
renderings of the loop's chunk values), least-significant chunk first,
and summing chunk_i * 2^(121*i) reproduces n exactly. -/
theorem C2_to_circom_bigint_bytes_correct (n : Nat) (hn : n < 2 ^ 2057) :
    to_circom_bigint_bytes n = (bigIntChunkVals n 121 17).map Nat.repr ∧
    (to_circom_bigint_bytes n).length = 17 ∧
    (∀ c ∈ bigIntChunkVals n 121 17, c < 2 ^ 121) ∧
    chunkSum 121 (bigIntChunkVals n 121 17) = n := by
  refine ⟨rfl, ?_, bigIntChunkVals_lt 121 17 n, ?_⟩
  · show ((bigIntChunkVals n 121 17).map Nat.repr).length = 17
    rw [List.length_map, bigIntChunkVals_length]
  · rw [chunkSum_bigIntChunkVals]
    have h : (121 : Nat) * 17 = 2057 := by norm_num
    rw [h]
    exact Nat.mod_eq_of_lt hn

/-- Witness for C2 at n = 3. -/
theorem C2_to_circom_bigint_bytes_correct_witness :
    3 < 2 ^ 2057 ∧ (to_circom_bigint_bytes 3).length = 17 ∧
    chunkSum 121 (bigIntChunkVals 3 121 17) = 3 :=
  have h : (3 : Nat) < 2 ^ 2057 :=
    lt_of_lt_of_le (by norm_num : (3 : Nat) < 2 ^ 2)
      (Nat.pow_le_pow_right (by norm_num) (by norm_num))
  ⟨h, (C2_to_circom_bigint_bytes_correct 3 h).2.1,
    (C2_to_circom_bigint_bytes_correct 3 h).2.2.2⟩

/-- C9: for every byte vector b, remove_quoted_printable_soft_breaks(b)
returns a cleaned vector of exactly the same length as b, equal to b with
every 61 13 10 triple removed and zero bytes appended at the end to
restore the original length; the remaining bytes appear in their original
order (the cleaned prefix is a sublist of b). -/
theorem C9_remove_soft_breaks_correct (b : List Nat) :
    (remove_quoted_printable_soft_breaks b).length = b.length ∧
    remove_quoted_printable_soft_breaks b
      = removeQpAux b ++ List.replicate (b.length - (removeQpAux b).length) 0 ∧
    List.Sublist (removeQpAux b) b := by
  refine ⟨?_, rfl, removeQpAux_sublist b⟩
  have h := removeQpAux_length_le b
  simp only [remove_quoted_printable_soft_breaks, List.length_append,
    List.length_replicate]
  omega

/-- C10: with a selector, the SHA-padding-strip loop of
generate_partial_sha terminates exactly when the body contains a byte 13
immediately followed by a byte 10; with such a pair the selector branch
always returns a value (for any in-bounds matcher), and without one the
loop never finishes, modelled by the outer none. -/
theorem C10_strip_loop_termination (body : List Nat) :
    ((stripShaPadding body).isSome ↔ ∃ s t : List Nat, body = s ++ 13 :: 10 :: t) ∧
    (∀ (f : List Nat → Option Nat) (bodyLength maxRemaining : Nat),
      (∃ s t : List Nat, body = s ++ 13 :: 10 :: t) →
      (∀ t i, f t = some i → i ≤ t.length) →
      (generate_partial_sha body bodyLength (some f) maxRemaining).isSome) ∧
    (∀ (f : List Nat → Option Nat) (bodyLength maxRemaining : Nat),
      (¬ ∃ s t : List Nat, body = s ++ 13 :: 10 :: t) →
      generate_partial_sha body bodyLength (some f) maxRemaining = none) := by
  refine ⟨stripShaPadding_isSome body, ?_, ?_⟩
  · intro f bodyLength maxRemaining hcrlf hf
    have hsome : (stripShaPadding body).isSome := (stripShaPadding_isSome body).mpr hcrlf
    obtain ⟨trimmed, htr⟩ := Option.isSome_iff_exists.mp hsome
    have htl := stripShaPadding_length_le body trimmed htr
    simp only [generate_partial_sha, htr]
    cases hfind : f trimmed with
    | none => rfl
    | some i =>
      have hi := hf trimmed i hfind
      have hcut : i / 64 * 64 ≤ body.length :=
        le_trans (le_trans (Nat.div_mul_le_self i 64) hi) htl
      dsimp only
      rw [if_neg (by omega)]
      split
      · rfl
      · split
        · rfl
        · rfl
  · intro f bodyLength maxRemaining hn
    have hnone : stripShaPadding body = none := by
      cases hs : stripShaPadding body with
      | none => rfl
      | some t =>
        exact absurd ((stripShaPadding_isSome body).mp (by rw [hs]; rfl)) hn
    simp only [generate_partial_sha, hnone]

/-- Witness for C10 at the two-byte body 13, 10 and a constant matcher. -/
theorem C10_strip_loop_termination_witness :
    (stripShaPadding [13, 10]).isSome ∧
    (generate_partial_sha [13, 10] 2 (some (fun _ => some 0)) 64).isSome :=
  ⟨((C10_strip_loop_termination [13, 10]).1).mpr ⟨[], [], rfl⟩,
    (C10_strip_loop_termination [13, 10]).2.1 (fun _ => some 0) 2 64 ⟨[], [], rfl⟩
      (fun t i h => by injection h with h; omega)⟩

/-- C3: generate_partial_sha returns the selector-not-found error when the
selector has no match in the trimmed body; the remaining-too-long error
when the remaining length exceeds the cap; the misaligned-padding error
when the remainder is not a multiple of 64 bytes (each both with and
without a selector); and with no selector the split point is 0, nothing is
pre-hashed, and the whole body is the remaining part with its full
length. -/
theorem C3_generate_partial_sha_behaviour (body : List Nat)
    (bodyLength maxRemaining : Nat) :
    (∀ (f : List Nat → Option Nat) (trimmed : List Nat),
      stripShaPadding body = some trimmed → f trimmed = none →
      generate_partial_sha body bodyLength (some f) maxRemaining
        = some (Except.error PartialShaError.selectorNotFound)) ∧
    (∀ (f : List Nat → Option Nat) (trimmed : List Nat) (i : Nat),
      stripShaPadding body = some trimmed → f trimmed = some i →
      i ≤ trimmed.length →
      wrapSub bodyLength (i / 64 * 64) > maxRemaining →
      generate_partial_sha body bodyLength (some f) maxRemaining
        = some (Except.error PartialShaError.remainingBodyTooLong)) ∧
    (∀ (f : List Nat → Option Nat) (trimmed : List Nat) (i : Nat),
      stripShaPadding body = some trimmed → f trimmed = some i →
      i ≤ trimmed.length →
      wrapSub bodyLength (i / 64 * 64) ≤ maxRemaining →
      (body.length - i / 64 * 64) % 64 ≠ 0 →
      generate_partial_sha body bodyLength (some f) maxRemaining
        = some (Except.error PartialShaError.misalignedPadding)) ∧
    (bodyLength > maxRemaining →
      generate_partial_sha body bodyLength none maxRemaining
        = some (Except.error PartialShaError.remainingBodyTooLong)) ∧
    (bodyLength ≤ maxRemaining → body.length % 64 ≠ 0 →
      generate_partial_sha body bodyLength none maxRemaining
        = some (Except.error PartialShaError.misalignedPadding)) ∧
    (bodyLength ≤ maxRemaining → body.length % 64 = 0 →
      generate_partial_sha body bodyLength none maxRemaining
        = some (Except.ok
            ([], body ++ List.replicate (maxRemaining - body.length) 0, bodyLength))) := by
  refine ⟨?_, ?_, ?_, ?_, ?_, ?_⟩
  · intro f trimmed htr hf
    simp only [generate_partial_sha, htr, hf]
  · intro f trimmed i htr hf hi hlong
    have htl := stripShaPadding_length_le body trimmed htr
    have hcut : i / 64 * 64 ≤ body.length :=
      le_trans (le_trans (Nat.div_mul_le_self i 64) hi) htl
    simp only [generate_partial_sha, htr, hf]
    rw [if_neg (by omega)]
    have htak : (body.take (i / 64 * 64)).length = i / 64 * 64 := by
      rw [List.length_take]
      omega
    rw [htak, if_pos hlong]
  · intro f trimmed i htr hf hi hle hmis
    have htl := stripShaPadding_length_le body trimmed htr
    have hcut : i / 64 * 64 ≤ body.length :=
      le_trans (le_trans (Nat.div_mul_le_self i 64) hi) htl
    simp only [generate_partial_sha, htr, hf]
    rw [if_neg (by omega)]
    have htak : (body.take (i / 64 * 64)).length = i / 64 * 64 := by
      rw [List.length_take]
      omega
    rw [htak, if_neg (by omega)]
    have hdrop : (body.drop (i / 64 * 64)).length = body.length - i / 64 * 64 :=
      List.length_drop _ _
    rw [hdrop, if_pos hmis]
  · intro hlong
    simp only [generate_partial_sha, Nat.zero_div, Nat.zero_mul]
    rw [if_neg (by omega)]
    have htak : (body.take 0).length = 0 := by simp
    rw [htak]
    have hws : wrapSub bodyLength 0 = bodyLength := by
      simp [wrapSub]
    rw [hws, if_pos hlong]
  · intro hle hmis
    simp only [generate_partial_sha, Nat.zero_div, Nat.zero_mul]
    rw [if_neg (by omega)]
    have htak : (body.take 0).length = 0 := by simp
    rw [htak]
    have hws : wrapSub bodyLength 0 = bodyLength := by
      simp [wrapSub]
    rw [hws, if_neg (by omega)]
    have hdrop : body.drop 0 = body := List.drop_zero body
    rw [hdrop, if_pos hmis]
  · intro hle hal
    simp only [generate_partial_sha, Nat.zero_div, Nat.zero_mul]
    rw [if_neg (by omega)]
    have htak : (body.take 0).length = 0 := by simp
    rw [htak]
    have hws : wrapSub bodyLength 0 = bodyLength := by
      simp [wrapSub]
    rw [hws, if_neg (by omega)]
    have hdrop : body.drop 0 = body := List.drop_zero body
    rw [hdrop, if_neg (by omega)]
    rw [List.take_zero]

/-- Witness for C3 at concrete bodies: a 64-byte CRLF-terminated body with
a never-matching selector, the same body with the three no-selector
outcomes, and a one-byte body for the misalignment error. -/
theorem C3_generate_partial_sha_behaviour_witness :
    generate_partial_sha body64 64 (some (fun _ => none)) 64
      = some (Except.error PartialShaError.selectorNotFound) ∧
    generate_partial_sha body64 64 none 32
      = some (Except.error PartialShaError.remainingBodyTooLong) ∧
    generate_partial_sha [0] 1 none 64
      = some (Except.error PartialShaError.misalignedPadding) ∧
    generate_partial_sha body64 64 none 64
      = some (Except.ok
          ([], body64 ++ List.replicate (64 - List.length body64) 0, 64)) :=
  have hstrip : stripShaPadding body64 = some body64 := by decide
  ⟨(C3_generate_partial_sha_behaviour body64 64 64).1 (fun _ => none) body64 hstrip rfl,
    (C3_generate_partial_sha_behaviour body64 64 32).2.2.2.1 (by decide),
    (C3_generate_partial_sha_behaviour [0] 1 64).2.2.2.2.1 (by decide) (by decide),
    (C3_generate_partial_sha_behaviour body64 64 64).2.2.2.2.2 (by decide) (by decide)⟩

/-- C5 counterexample: chunking a 256-byte input at 121-bit granularity
with the arguments used by public_key_hash and email_nullifier produces 9
field elements, not the 2 stated by the claim. -/
theorem C5_counterexample_nine_fields :
    (bytes_chunk_fields (List.replicate 256 0) 121 2 17).length = 9 ∧ (9 : Nat) ≠ 2 :=
  ⟨bytes_chunk_fields_length_nine (List.replicate 256 0)
    (by rw [List.length_replicate]; omega), by omega⟩

/-- C5 amended: public_key_hash, email_nullifier and
extract_rand_from_signature chunk their input at 121-bit granularity into
exactly 9 field elements (17 words of 121 bits, combined two per field
element) before Poseidon hashing; the nullifier applies Poseidon once more
to the first hash, and the randomness extraction shares the first chunking
step on the reversed bytes with an appended constant 1. -/
theorem C5_amended_chunking (poseidon : PoseidonFn) (bytes : List Nat)
    (h : bytes.length ≤ 257) :
    (bytes_chunk_fields bytes 121 2 17).length = 9 ∧
    public_key_hash poseidon bytes = poseidon (bytes_chunk_fields bytes 121 2 17) ∧
    email_nullifier poseidon bytes
      = (poseidon (bytes_chunk_fields bytes 121 2 17)).bind
          (fun hash1 => poseidon [hash1]) ∧
    extract_rand_from_signature poseidon bytes
      = poseidon (bytes_chunk_fields bytes.reverse 121 2 17 ++ [(1 : Fr)]) :=
  ⟨bytes_chunk_fields_length_nine bytes h, rfl, rfl, rfl⟩

/-- Witness for C5 at the empty byte string and a constant hash. -/
theorem C5_amended_chunking_witness :
    List.length ([] : List Nat) ≤ 257 ∧
    (bytes_chunk_fields ([] : List Nat) 121 2 17).length = 9 :=
  ⟨by decide, (C5_amended_chunking (fun _ => Except.ok 0) [] (by decide)).1⟩

/-- C6 counterexample: hex_to_field aborts rather than returning an error
result on the empty input, which lacks the 0x prefix, and on the
0x-prefixed 64-digit input of all f characters, which decodes to a
32-byte value at least the field modulus. -/
theorem C6_counterexample_panics :
    hex_to_field [] = RunResult.panic ∧ hex_to_field ffHex = RunResult.panic := by
  constructor
  · rfl
  · rfl

/-- C6 amended: hex_to_field returns an error result on two-byte-or-longer
inputs lacking the 0x prefix, on invalid hex, and on hex that does not
decode to exactly 32 bytes; it aborts (panics) on inputs shorter than two
bytes and on 32-byte values not below the field modulus; and it succeeds
on every 0x-prefixed 64-hex-digit string whose reversed bytes are below
the modulus. -/
theorem C6_amended_hex_to_field (s : List Char) :
    (s.length < 2 → hex_to_field s = RunResult.panic) ∧
    (2 ≤ s.length → s.take 2 ≠ ['0', 'x'] → hex_to_field s = RunResult.err) ∧
    (s.take 2 = ['0', 'x'] → hexDecode (s.drop 2) = none →
      hex_to_field s = RunResult.err) ∧
    (∀ bytes, s.take 2 = ['0', 'x'] → hexDecode (s.drop 2) = some bytes →
      bytes.length ≠ 32 → hex_to_field s = RunResult.err) ∧
    (∀ bytes, s.take 2 = ['0', 'x'] → hexDecode (s.drop 2) = some bytes →
      bytes.length = 32 → frModulus ≤ leBytesVal bytes.reverse →
      hex_to_field s = RunResult.panic) ∧
    (∀ bytes, s.take 2 = ['0', 'x'] → hexDecode (s.drop 2) = some bytes →
      bytes.length = 32 → leBytesVal bytes.reverse < frModulus →
      hex_to_field s = RunResult.ok ((leBytesVal bytes.reverse : Nat) : Fr)) := by
  have hlen2 : s.take 2 = ['0', 'x'] → ¬ s.length < 2 := by
    intro hp hlt
    have hc := congrArg List.length hp
    rw [List.length_take] at hc
    simp at hc
    omega
  refine ⟨?_, ?_, ?_, ?_, ?_, ?_⟩
  · intro h
    simp only [hex_to_field, if_pos h]
  · intro h2 hp
    simp only [hex_to_field]
    rw [if_neg (by omega), if_pos hp]
  · intro hp hd
    simp only [hex_to_field]
    rw [if_neg (hlen2 hp), if_neg (fun hc => hc hp)]
    simp only [hd]
  · intro bytes hp hd hne
    simp only [hex_to_field]
    rw [if_neg (hlen2 hp), if_neg (fun hc => hc hp)]
    simp only [hd]
    rw [if_pos (by rw [List.length_reverse]; exact hne)]
  · intro bytes hp hd h32 hge
    simp only [hex_to_field]
    rw [if_neg (hlen2 hp), if_neg (fun hc => hc hp)]
    simp only [hd]
    rw [if_neg (by rw [List.length_reverse, h32]; omega),
      if_neg (by omega)]
  · intro bytes hp hd h32 hlt
    simp only [hex_to_field]
    rw [if_neg (hlen2 hp), if_neg (fun hc => hc hp)]
    simp only [hd]
    rw [if_neg (by rw [List.length_reverse, h32]; omega),
      if_pos hlt]

/-- Witness for C6 at concrete inputs covering each of the six cases. -/
theorem C6_amended_hex_to_field_witness :
    hex_to_field ['a'] = RunResult.panic ∧
    hex_to_field ['a', 'b'] = RunResult.err ∧
    hex_to_field ['0', 'x', 'z'] = RunResult.err ∧
    hex_to_field ['0', 'x', 'a', 'b'] = RunResult.err ∧
    hex_to_field ffHex = RunResult.panic ∧
    hex_to_field zeroHex
      = RunResult.ok ((leBytesVal (List.replicate 32 0).reverse : Nat) : Fr) :=
  ⟨(C6_amended_hex_to_field ['a']).1 (by decide),
    (C6_amended_hex_to_field ['a', 'b']).2.1 (by decide) (by decide),
    (C6_amended_hex_to_field ['0', 'x', 'z']).2.2.1 (by decide) (by decide),
    (C6_amended_hex_to_field ['0', 'x', 'a', 'b']).2.2.2.1 [171]
      (by decide) (by decide) (by decide),
    (C6_amended_hex_to_field ffHex).2.2.2.2.1 (List.replicate 32 255)
      (by decide) (by decide) (by decide) (by decide),
    (C6_amended_hex_to_field zeroHex).2.2.2.2.2 (List.replicate 32 0)
      (by decide) (by decide) (by decide) (by decide)⟩

/-- C7: hex_to_u256 aborts on the repository's own well-formed 20-byte
test address (copy_from_slice of 20 decoded bytes into a 32-byte array),
so the decomposed-regexes entry point aborts instead of producing the
decimal string whenever a prover address is supplied; with no address the
output field proverETHAddress is the string 0. -/
theorem C7_prover_eth_address_bug :
    hex_to_u256 ethAddrInput = RunResult.panic ∧
    generate_circuit_inputs_with_decomposed_regexes_and_external_inputs
      emptyCircuitInput
      { prover_eth_address := some ethAddrInput, max_header_length := 1024,
        max_body_length := 1536, ignore_body_hash_check := true,
        remove_soft_lines_breaks := false }
      none [] [] = RunResult.panic ∧
    lookupRun
      (generate_circuit_inputs_with_decomposed_regexes_and_external_inputs
        emptyCircuitInput
        { prover_eth_address := none, max_header_length := 1024,
          max_body_length := 1536, ignore_body_hash_check := true,
          remove_soft_lines_breaks := false }
        none [] []) "proverETHAddress" = some (Json.str "0") := by
  refine ⟨rfl, rfl, rfl⟩

/-- C8 counterexample: a token only prefix-matched by the ethAddr pattern
(the 42-character address followed by two further hex characters) is
accepted by extract_template_vals with the value parsed from the matched
prefix, not rejected with a whole-word-mismatch error. -/
theorem C8_counterexample_prefix_accepted :
    extract_template_vals ethPrefixTok ["{ethAddr}"]
      = Except.ok [TemplateValue.ethAddr 0x9401296121FC9B78F84fc856B1F8dC88f4415B2e] := by
  rfl

/-- C8 amended: the token-by-token whole-word validation holds for the
uint, int and decimals placeholders, whose matches must span the entire
token; the string and ethAddr placeholders only require the match to start
at the beginning of the token, so an ethAddr match that is a proper prefix
is accepted with the value parsed from the matched prefix.  The
specification scenario behaves as stated: the well-formed command
extracts Uint 100 and the address, and the 100x command fails with the
whole-word-mismatch error. -/
theorem C8_amended_whole_word :
    (∀ (toks : List (List Char)) (idx : Nat) (tok : List Char) (s e : Nat),
      toks[idx]? = some tok → findUint tok = some (s, e) → s = 0 →
      e ≠ tok.length →
      processTemplate toks idx "{uint}" = Except.error TemplateError.notWholeWord) ∧
    (∀ (toks : List (List Char)) (idx : Nat) (tok : List Char) (s e : Nat),
      toks[idx]? = some tok → findInt tok = some (s, e) → s = 0 →
      e ≠ tok.length →
      processTemplate toks idx "{int}" = Except.error TemplateError.notWholeWord) ∧
    (∀ (toks : List (List Char)) (idx : Nat) (tok : List Char) (s e : Nat),
      toks[idx]? = some tok → findDecimals tok = some (s, e) → s = 0 →
      e ≠ tok.length →
      processTemplate toks idx "{decimals}" = Except.error TemplateError.notWholeWord) ∧
    (∀ (toks : List (List Char)) (idx : Nat) (tok : List Char) (s e : Nat),
      toks[idx]? = some tok → findEthAddr tok = some (s, e) → s = 0 →
      processTemplate toks idx "{ethAddr}"
        = Except.ok (some (TemplateValue.ethAddr
            (hexDigitsToNat (((tok.drop s).take (e - s)).drop 2))))) ∧
    extract_template_vals sendOkInput sendTemplates
      = Except.ok [TemplateValue.uint 100,
          TemplateValue.ethAddr 0x9401296121FC9B78F84fc856B1F8dC88f4415B2e] ∧
    extract_template_vals sendBadInput sendTemplates
      = Except.error TemplateError.notWholeWord := by
  refine ⟨?_, ?_, ?_, ?_, by rfl, by rfl⟩
  · intro toks idx tok s e htok hfind hs he
    simp only [processTemplate, String.reduceEq, reduceIte]
    simp only [htok, hfind]
    rw [if_pos (Or.inr he)]
  · intro toks idx tok s e htok hfind hs he
    simp only [processTemplate, String.reduceEq, reduceIte]
    simp only [htok, hfind]
    rw [if_pos (Or.inr he)]
  · intro toks idx tok s e htok hfind hs he
    simp only [processTemplate, String.reduceEq, reduceIte]
    simp only [htok, hfind]
    rw [if_pos (Or.inr he)]
  · intro toks idx tok s e htok hfind hs
    simp only [processTemplate, String.reduceEq, reduceIte]
    simp only [htok, hfind]
    rw [if_neg (by omega)]

/-- Witness for C8 at concrete tokens for each placeholder kind. -/
theorem C8_amended_whole_word_witness :
    processTemplate [['1', '2', '3', 'a']] 0 "{uint}"
      = Except.error TemplateError.notWholeWord ∧
    processTemplate [['-', '1', 'x']] 0 "{int}"
      = Except.error TemplateError.notWholeWord ∧
    processTemplate [['1', '.', '2', 'x']] 0 "{decimals}"
      = Except.error TemplateError.notWholeWord ∧
    processTemplate [ethPrefixTok] 0 "{ethAddr}"
      = Except.ok (some (TemplateValue.ethAddr
          (hexDigitsToNat (((ethPrefixTok.drop 0).take (42 - 0)).drop 2)))) :=
  ⟨C8_amended_whole_word.1 [['1', '2', '3', 'a']] 0 ['1', '2', '3', 'a'] 0 3
      rfl (by decide) rfl (by decide),
    C8_amended_whole_word.2.1 [['-', '1', 'x']] 0 ['-', '1', 'x'] 0 2
      rfl (by decide) rfl (by decide),
    C8_amended_whole_word.2.2.1 [['1', '.', '2', 'x']] 0 ['1', '.', '2', 'x'] 0 3
      rfl (by decide) rfl (by decide),
    C8_amended_whole_word.2.2.2.1 [ethPrefixTok] 0 ethPrefixTok 0 42
      rfl (by decide) rfl⟩

theorem decomposed_lookup_ignore (inputs : CircuitInputR)
    (params : DecomposedCircuitParams) (cleaned : Option (List Nat))
    (rgx : List (String × Nat)) (ext : List (String × List String × Nat))
    (out : List (String × Json)) (k : String)
    (hig : params.ignore_body_hash_check = true)
    (hrgx : ∀ p ∈ rgx, p.1 ++ "RegexIdx" ≠ k)
    (hext : ∀ p ∈ ext, p.1 ≠ k)
    (hk1 : k ≠ "decodedEmailBodyIn") (hk2 : k ≠ "proverETHAddress")
    (hres : generate_circuit_inputs_with_decomposed_regexes_and_external_inputs
      inputs params cleaned rgx ext = RunResult.ok out) :
    out.lookup k = List.lookup k
      [("emailHeader", jsonOfBytes inputs.header_padded),
       ("emailHeaderLength", Json.num inputs.header_len_padded_bytes),
       ("pubkey", jsonOfStrList inputs.pubkey),
       ("signature", jsonOfStrList inputs.signature)] := by
  simp only [generate_circuit_inputs_with_decomposed_regexes_and_external_inputs,
    hig, if_true] at hres
  cases hv : params.prover_eth_address with
  | none =>
    rw [hv] at hres
    dsimp only at hres
    injection hres with hres
    subst hres
    rw [lookup_insertKV_ne _ _ _ _ hk2]
    rw [lookup_foldl_preserve k _ ext _
      (fun o p hp => lookup_insertKV_ne _ _ _ _ (Ne.symm (hext p hp)))]
    rw [lookup_foldl_preserve k _ rgx _
      (fun o p hp => lookup_insertKV_ne _ _ _ _ (Ne.symm (hrgx p hp)))]
    by_cases hr : params.remove_soft_lines_breaks
    · rw [if_pos hr, lookup_insertKV_ne _ _ _ _ hk1]
    · rw [if_neg hr]
  | some addr =>
    rw [hv] at hres
    dsimp only at hres
    cases hhex : hex_to_u256 addr with
    | ok v =>
      rw [hhex] at hres
      dsimp only at hres
      injection hres with hres
      subst hres
      rw [lookup_insertKV_ne _ _ _ _ hk2]
      rw [lookup_foldl_preserve k _ ext _
        (fun o p hp => lookup_insertKV_ne _ _ _ _ (Ne.symm (hext p hp)))]
      rw [lookup_foldl_preserve k _ rgx _
        (fun o p hp => lookup_insertKV_ne _ _ _ _ (Ne.symm (hrgx p hp)))]
      by_cases hr : params.remove_soft_lines_breaks
      · rw [if_pos hr, lookup_insertKV_ne _ _ _ _ hk1]
      · rw [if_neg hr]
    | err =>
      rw [hhex] at hres
      dsimp only at hres
      exact (RunResult.noConfusion hres)
    | panic =>
      rw [hhex] at hres
      dsimp only at hres
      exact (RunResult.noConfusion hres)

theorem decomposed_lookup_present (inputs : CircuitInputR)
    (params : DecomposedCircuitParams) (cleaned : Option (List Nat))
    (rgx : List (String × Nat)) (ext : List (String × List String × Nat))
    (out : List (String × Json)) (k : String)
    (hig : params.ignore_body_hash_check = false)
    (hk : k ∈ bodyKeys)
    (hres : generate_circuit_inputs_with_decomposed_regexes_and_external_inputs
      inputs params cleaned rgx ext = RunResult.ok out) :
    (out.lookup k).isSome := by
  simp only [generate_circuit_inputs_with_decomposed_regexes_and_external_inputs,
    hig, Bool.false_eq_true, if_false] at hres
  have h1 : ∀ base : List (String × Json),
      ((insertKV (insertKV (insertKV (insertKV base
        "bodyHashIndex" (jsonOfOptNum inputs.body_hash_idx))
        "precomputedSHA" (jsonOfOptBytes inputs.precomputed_sha))
        "emailBody" (jsonOfOptBytes inputs.body_padded))
        "emailBodyLength" (jsonOfOptNum inputs.body_len_padded_bytes)).lookup k).isSome := by
    intro base
    fin_cases hk
    · rw [lookup_insertKV_ne _ _ _ _ (by decide),
        lookup_insertKV_ne _ _ _ _ (by decide),
        lookup_insertKV_ne _ _ _ _ (by decide),
        lookup_insertKV_self]
      rfl
    · rw [lookup_insertKV_ne _ _ _ _ (by decide),
        lookup_insertKV_ne _ _ _ _ (by decide),
        lookup_insertKV_self]
      rfl
    · rw [lookup_insertKV_ne _ _ _ _ (by decide), lookup_insertKV_self]
      rfl
    · rw [lookup_insertKV_self]
      rfl
  cases hv : params.prover_eth_address with
  | none =>
    rw [hv] at hres
    dsimp only at hres
    injection hres with hres
    subst hres
    apply lookup_insertKV_isSome
    apply lookup_foldl_isSome k _ ext _ (fun o p => lookup_insertKV_isSome o k p.1 _)
    apply lookup_foldl_isSome k _ rgx _
      (fun o p => lookup_insertKV_isSome o k (p.1 ++ "RegexIdx") _)
    by_cases hr : params.remove_soft_lines_breaks
    · rw [if_pos hr]
      apply lookup_insertKV_isSome
      exact h1 _
    · rw [if_neg hr]
      exact h1 _
  | some addr =>
    rw [hv] at hres
    dsimp only at hres
    cases hhex : hex_to_u256 addr with
    | ok v =>
      rw [hhex] at hres
      dsimp only at hres
      injection hres with hres
      subst hres
      apply lookup_insertKV_isSome
      apply lookup_foldl_isSome k _ ext _ (fun o p => lookup_insertKV_isSome o k p.1 _)
      apply lookup_foldl_isSome k _ rgx _
        (fun o p => lookup_insertKV_isSome o k (p.1 ++ "RegexIdx") _)
      by_cases hr : params.remove_soft_lines_breaks
      · rw [if_pos hr]
        apply lookup_insertKV_isSome
        exact h1 _
      · rw [if_neg hr]
        exact h1 _
    | err =>
      rw [hhex] at hres
      dsimp only at hres
      exact (RunResult.noConfusion hres)
    | panic =>
      rw [hhex] at hres
      dsimp only at hres
      exact (RunResult.noConfusion hres)

/-- C4 counterexample: processing a concrete email with
ignore_body_hash_check set, the EmailCircuitInput serialization of the
email entry point carries the body-related keys with the value null
rather than omitting them. -/
theorem C4_counterexample_null_body_keys :
    (generate_circuit_inputs cp4).isSome = true ∧
    (serializeEmailCircuitInput
      (buildEmailAuthInput ((generate_circuit_inputs cp4).getD emptyCircuitInput)
        "0x0" 0 none 0 0 0 0 none)).lookup "padded_body" = some Json.null ∧
    (serializeEmailCircuitInput
      (buildEmailAuthInput ((generate_circuit_inputs cp4).getD emptyCircuitInput)
        "0x0" 0 none 0 0 0 0 none)).lookup "body_hash_idx" = some Json.null ∧
    (serializeEmailCircuitInput
      (buildEmailAuthInput ((generate_circuit_inputs cp4).getD emptyCircuitInput)
        "0x0" 0 none 0 0 0 0 none)).lookup "padded_body_len" = some Json.null ∧
    (serializeEmailCircuitInput
      (buildEmailAuthInput ((generate_circuit_inputs cp4).getD emptyCircuitInput)
        "0x0" 0 none 0 0 0 0 none)).lookup "precomputed_sha" = some Json.null := by
  obtain ⟨z, h1, h2, h3, h4⟩ := sha256_pad_eq [] 64 rfl (by norm_num)
  have hgen : generate_circuit_inputs cp4 = some
      { header_padded := [] ++ [0x80] ++ List.replicate z 0
          ++ int64_to_bytes (List.length ([] : List Nat) * 8)
          ++ List.replicate (64 - (List.length ([] : List Nat) + 9 + z)) 0
        pubkey := to_circom_bigint_bytes 0
        signature := to_circom_bigint_bytes 0
        header_len_padded_bytes := List.length ([] : List Nat) + 9 + z
        precomputed_sha := none
        body_padded := none
        body_len_padded_bytes := none
        body_hash_idx := none } := by
    simp only [generate_circuit_inputs, cp4]
    rw [h1]
    rfl
  rw [hgen]
  exact ⟨rfl, rfl, rfl, rfl, rfl⟩

/-- C4 amended: in the decomposed-regexes entry point the four body keys
(bodyHashIndex, precomputedSHA, emailBody, emailBodyLength) are absent
from the output object when the body hash check is ignored, provided no
caller-supplied regex or external-input name collides with them, and all
four are present when the check is active; in the email entry point the
EmailCircuitInput serialization carries padded_body, body_hash_idx,
padded_body_len and precomputed_sha with a JSON null value when they are
absent, and only subject_idx is omitted entirely. -/
theorem C4_amended_body_key_presence :
    (∀ (inputs : CircuitInputR) (params : DecomposedCircuitParams)
        (cleaned : Option (List Nat)) (rgx : List (String × Nat))
        (ext : List (String × List String × Nat))
        (out : List (String × Json)) (k : String),
      params.ignore_body_hash_check = true →
      (∀ p ∈ rgx, p.1 ++ "RegexIdx" ≠ k) →
      (∀ p ∈ ext, p.1 ≠ k) →
      k ∈ bodyKeys →
      generate_circuit_inputs_with_decomposed_regexes_and_external_inputs
        inputs params cleaned rgx ext = RunResult.ok out →
      out.lookup k = none) ∧
    (∀ (inputs : CircuitInputR) (params : DecomposedCircuitParams)
        (cleaned : Option (List Nat)) (rgx : List (String × Nat))
        (ext : List (String × List String × Nat))
        (out : List (String × Json)) (k : String),
      params.ignore_body_hash_check = false →
      k ∈ bodyKeys →
      generate_circuit_inputs_with_decomposed_regexes_and_external_inputs
        inputs params cleaned rgx ext = RunResult.ok out →
      (out.lookup k).isSome) ∧
    (∀ x : EmailCircuitInput,
      (x.padded_body = none →
        (serializeEmailCircuitInput x).lookup "padded_body" = some Json.null) ∧
      (x.body_hash_idx = none →
        (serializeEmailCircuitInput x).lookup "body_hash_idx" = some Json.null) ∧
      (x.padded_body_len = none →
        (serializeEmailCircuitInput x).lookup "padded_body_len" = some Json.null) ∧
      (x.precomputed_sha = none →
        (serializeEmailCircuitInput x).lookup "precomputed_sha" = some Json.null) ∧
      (x.subject_idx = none →
        (serializeEmailCircuitInput x).lookup "subject_idx" = none)) := by
  refine ⟨?_, ?_, ?_⟩
  · intro inputs params cleaned rgx ext out k hig hrgx hext hk hres
    have hk1 : k ≠ "decodedEmailBodyIn" := by fin_cases hk <;> decide
    have hk2 : k ≠ "proverETHAddress" := by fin_cases hk <;> decide
    rw [decomposed_lookup_ignore inputs params cleaned rgx ext out k hig hrgx hext
      hk1 hk2 hres]
    fin_cases hk <;> rfl
  · intro inputs params cleaned rgx ext out k hig hk hres
    exact decomposed_lookup_present inputs params cleaned rgx ext out k hig hk hres
  · intro x
    refine ⟨?_, ?_, ?_, ?_, ?_⟩
    · intro h
      simp only [serializeEmailCircuitInput, List.cons_append, List.nil_append,
        List.lookup, String.reduceBEq, h, jsonOfOptBytes]
    · intro h
      simp only [serializeEmailCircuitInput, List.cons_append, List.nil_append,
        List.lookup, String.reduceBEq, h, jsonOfOptNum]
    · intro h
      simp only [serializeEmailCircuitInput, List.cons_append, List.nil_append,
        List.lookup, String.reduceBEq, h, jsonOfOptNum]
    · intro h
      simp only [serializeEmailCircuitInput, List.cons_append, List.nil_append,
        List.lookup, String.reduceBEq, h, jsonOfOptBytes]
    · intro h
      simp only [serializeEmailCircuitInput, h, List.cons_append, List.nil_append,
        List.lookup, String.reduceBEq]

/-- Witness for C4: a concrete run with the body hash check ignored has no
emailBody key, a concrete run with the check active has all four body
keys, and a concrete serialization with an absent body carries null body
fields. -/
theorem C4_amended_body_key_presence_witness :
    (List.lookup "emailBody"
      [("emailHeader", jsonOfBytes ([] : List Nat)),
       ("emailHeaderLength", Json.num 0),
       ("pubkey", jsonOfStrList ([] : List String)),
       ("signature", jsonOfStrList ([] : List String)),
       ("proverETHAddress", Json.str "0")] = none) ∧
    ((List.lookup "emailBody"
      [("emailHeader", jsonOfBytes ([] : List Nat)),
       ("emailHeaderLength", Json.num 0),
       ("pubkey", jsonOfStrList ([] : List String)),
       ("signature", jsonOfStrList ([] : List String)),
       ("bodyHashIndex", Json.null), ("precomputedSHA", Json.null),
       ("emailBody", Json.null), ("emailBodyLength", Json.null),
       ("proverETHAddress", Json.str "0")]).isSome) ∧
    (serializeEmailCircuitInput
      (buildEmailAuthInput emptyCircuitInput "0x0" 0 none 0 0 0 0 none)).lookup
        "padded_body" = some Json.null :=
  ⟨C4_amended_body_key_presence.1 emptyCircuitInput
      { prover_eth_address := none, max_header_length := 1024,
        max_body_length := 1536, ignore_body_hash_check := true,
        remove_soft_lines_breaks := false }
      none [] [] _ "emailBody" rfl (by intro p hp; cases hp)
      (by intro p hp; cases hp) (by decide) rfl,
    C4_amended_body_key_presence.2.1 emptyCircuitInput
      { prover_eth_address := none, max_header_length := 1024,
        max_body_length := 1536, ignore_body_hash_check := false,
        remove_soft_lines_breaks := false }
      none [] [] _ "emailBody" rfl (by decide) rfl,
    (C4_amended_body_key_presence.2.2
      (buildEmailAuthInput emptyCircuitInput "0x0" 0 none 0 0 0 0 none)).1 rfl⟩

end RelayerUtils
